import Mathlib

/-!
Verification of the resumind AI-feedback ingestion pipeline
(`src/app/lib/json-validator.ts`, the review-session controller route,
and the PDF rasterizer `convertPdfToImage`).

JavaScript values produced by `JSON.parse` are embedded as the inductive
`JSValue` (null / boolean / number / string / array / object).  Numbers are
modelled as exact rationals (`ℚ`); JavaScript floats are a subset of these,
and none of the verified properties depends on float rounding.  Strings are
Lean strings (sequences of Unicode scalar values); lone UTF-16 surrogates,
which Lean cannot represent, are mapped to U+FFFD by the JSON parser model.
-/

namespace Resumind

inductive JSValue where
  | null
  | bool (b : Bool)
  | num (q : ℚ)
  | str (s : String)
  | arr (elems : List JSValue)
  | obj (fields : List (String × JSValue))

/-- JavaScript truthiness of a JSON value (`!v` in the source is `!truthy v`).
`NaN` is not representable here; `0` and the empty string are the falsy
non-null primitives. -/
def truthy : JSValue → Bool
  | .null => false
  | .bool b => b
  | .num q => !(q = 0 : Bool)
  | .str s => !(s = "" : Bool)
  | .arr _ => true
  | .obj _ => true

/-- JavaScript `typeof v === 'object'`: true for null, arrays and objects. -/
def isObjectType : JSValue → Bool
  | .null => true
  | .arr _ => true
  | .obj _ => true
  | _ => false

/-- Property lookup on an object field list; with duplicate keys the last
occurrence wins, matching what `JSON.parse` produces for duplicate keys. -/
def lookupField (fields : List (String × JSValue)) (k : String) : Option JSValue :=
  match fields with
  | [] => none
  | (k', v) :: rest =>
    match lookupField rest k with
    | some r => some r
    | none => if k' = k then some v else none

/-- JavaScript property access `v[k]`: named properties exist only on
objects; on primitives and arrays produced by `JSON.parse` the names used by
the validator (`overallScore`, `score`, `tips`, `type`, `tip`,
`explanation`, the section names) are all absent. -/
def getProp : JSValue → String → Option JSValue
  | .obj fields, k => lookupField fields k
  | _, _ => none

def sectionNames : List String := ["ATS", "toneAndStyle", "content", "structure", "skills"]

/-- One iteration of the tip loop in `validateFeedbackStructure`
(json-validator.ts lines 63-72). -/
def validTip (isATS : Bool) (t : JSValue) : Bool :=
  truthy t && isObjectType t &&
  (match getProp t "type" with
   | some (.str s) => s = "good" || s = "improve"
   | _ => false) &&
  (match getProp t "tip" with
   | some (.str _) => true
   | _ => false) &&
  (isATS ||
   (match getProp t "explanation" with
    | some (.str _) => true
    | _ => false))

/-- One iteration of the section loop in `validateFeedbackStructure`
(json-validator.ts lines 57-73). -/
def validSection (v : JSValue) (name : String) : Bool :=
  match getProp v name with
  | some s =>
    truthy s && isObjectType s &&
    (match getProp s "score" with
     | some (.num _) => true
     | _ => false) &&
    (match getProp s "tips" with
     | some (.arr tips) => tips.all (validTip (name = "ATS"))
     | _ => false)
  | none => false

/-- `validateFeedbackStructure` (json-validator.ts lines 49-76). -/
def validateFeedbackStructure (v : JSValue) : Bool :=
  truthy v && isObjectType v &&
  (match getProp v "overallScore" with
   | some (.num _) => true
   | _ => false) &&
  sectionNames.all (validSection v)

/-- The `errorTip` literal of `createFallbackFeedback`
(json-validator.ts lines 116-120). -/
def errorTip (errorMessage : String) : JSValue :=
  .obj [("type", .str "improve"),
        ("tip", .str "Manual review needed"),
        ("explanation", .str (errorMessage ++ ". Please try uploading your resume again or contact support if the issue persists."))]

/-- The `basicTip` literal of `createFallbackFeedback`
(json-validator.ts lines 122-125). -/
def basicTip : JSValue :=
  .obj [("type", .str "improve"),
        ("tip", .str "Upload failed - please try again")]

/-- `createFallbackFeedback` (json-validator.ts lines 115-150).  The source
has default argument `'AI parsing failed'`; every call site in the repository
passes the message explicitly, so it is a required argument here. -/
def createFallbackFeedback (errorMessage : String) : JSValue :=
  .obj [("overallScore", .num 50),
        ("ATS", .obj [("score", .num 50), ("tips", .arr [basicTip])]),
        ("toneAndStyle", .obj [("score", .num 50), ("tips", .arr [errorTip errorMessage])]),
        ("content", .obj [("score", .num 50), ("tips", .arr [errorTip errorMessage])]),
        ("structure", .obj [("score", .num 50), ("tips", .arr [errorTip errorMessage])]),
        ("skills", .obj [("score", .num 50), ("tips", .arr [errorTip errorMessage])])]

/-- Spec-side tip condition, written from the claim text: "every tip is an
object whose kind field is one of the two enumerated values (good/improve),
whose tip field is a string, and which — for every section except ATS —
additionally has a string explanation".  The discriminator the spec calls
`kind` is the JSON key `type`. -/
def specTip (isATS : Bool) (t : JSValue) : Bool :=
  match t with
  | .obj _ =>
    (match getProp t "type" with
     | some (.str s) => s = "good" || s = "improve"
     | _ => false) &&
    (match getProp t "tip" with
     | some (.str _) => true
     | _ => false) &&
    (isATS ||
     (match getProp t "explanation" with
      | some (.str _) => true
      | _ => false))
  | _ => false

/-- Spec-side section condition: "present as objects, each with a numeric
score and an array of tips". -/
def specSection (v : JSValue) (name : String) : Bool :=
  match getProp v name with
  | some (.obj sf) =>
    (match getProp (.obj sf) "score" with
     | some (.num _) => true
     | _ => false) &&
    (match getProp (.obj sf) "tips" with
     | some (.arr tips) => tips.all (specTip (name = "ATS"))
     | _ => false)
  | _ => false

/-- Spec-side validity, written from the claim text of C2: "v is an object
with a numeric overallScore and all five sections present as objects, ...". -/
def specValid (v : JSValue) : Bool :=
  match v with
  | .obj _ =>
    (match getProp v "overallScore" with
     | some (.num _) => true
     | _ => false) &&
    sectionNames.all (specSection v)
  | _ => false

theorem validTip_eq_specTip (isATS : Bool) : validTip isATS = specTip isATS := by
  funext t
  cases t <;> simp [validTip, specTip, truthy, isObjectType, getProp]

theorem validSection_eq_specSection (v : JSValue) :
    validSection v = specSection v := by
  funext name
  unfold validSection specSection
  cases h : getProp v name with
  | none => rfl
  | some s =>
    cases s <;>
      simp [truthy, isObjectType, getProp, validTip_eq_specTip]

theorem validate_eq_specValid (v : JSValue) :
    validateFeedbackStructure v = specValid v := by
  cases v <;>
    simp [validateFeedbackStructure, specValid, truthy, isObjectType, getProp,
      validSection_eq_specSection]

/-! ## JSON deserialization (`JSON.parse`)

A fuel-indexed recursive-descent parser over the character list of the
input, following RFC 8259 / ECMAScript `JSON.parse`: optional whitespace
around tokens, the literals `null`/`true`/`false`, numbers with optional
fraction and exponent and no leading zeros, strings with the standard
escapes (UTF-16 surrogate escape pairs are combined; lone surrogates, not
representable as Lean characters, become U+FFFD), arrays and objects.
`JSON.parse` throws on malformed input; the model returns `none`. -/

/-- JSON insignificant whitespace: space, tab, line feed, carriage return. -/
def jsonWs (c : Char) : Bool :=
  c = ' ' || c = '\t' || c = '\n' || c = '\r'

def skipWs (cs : List Char) : List Char := cs.dropWhile jsonWs

def fromHexDigit (c : Char) : Option Nat :=
  if '0' ≤ c ∧ c ≤ '9' then some (c.toNat - 48)
  else if 'a' ≤ c ∧ c ≤ 'f' then some (c.toNat - 87)
  else if 'A' ≤ c ∧ c ≤ 'F' then some (c.toNat - 55)
  else none

def hex4 (a b c d : Char) : Option Nat := do
  let x1 ← fromHexDigit a
  let x2 ← fromHexDigit b
  let x3 ← fromHexDigit c
  let x4 ← fromHexDigit d
  some (((x1 * 16 + x2) * 16 + x3) * 16 + x4)

/-- Prepend a character to the first component of a string-parse result. -/
def consFst (c : Char) : Option (List Char × List Char) → Option (List Char × List Char) :=
  Option.map (fun p => (c :: p.1, p.2))

/-- Decode a `\uXXXX` escape with value `n` given the remaining input `r2`:
a high surrogate followed by a low-surrogate escape combines into one code
point; lone surrogates (not representable as Lean characters) become
U+FFFD. -/
def decodeUnicodeEscape (n : Nat) (r2 : List Char) : Char × List Char :=
  if 0xD800 ≤ n ∧ n ≤ 0xDBFF then
    match r2 with
    | '\\' :: 'u' :: k1 :: k2 :: k3 :: k4 :: r3 =>
      match hex4 k1 k2 k3 k4 with
      | some m =>
        if 0xDC00 ≤ m ∧ m ≤ 0xDFFF then
          (Char.ofNat (0x10000 + (n - 0xD800) * 0x400 + (m - 0xDC00)), r3)
        else (Char.ofNat 0xFFFD, r2)
      | none => (Char.ofNat 0xFFFD, r2)
    | _ => (Char.ofNat 0xFFFD, r2)
  else if 0xDC00 ≤ n ∧ n ≤ 0xDFFF then (Char.ofNat 0xFFFD, r2)
  else (Char.ofNat n, r2)

/-- Parse the body of a JSON string (the opening quote already consumed),
returning the decoded characters and the remainder after the closing quote.
Fuel-indexed (each step emits one decoded character); callers pass
`length + 1`, which always suffices. -/
def parseStringChars : Nat → List Char → Option (List Char × List Char)
  | 0, _ => none
  | _ + 1, [] => none
  | fuel + 1, c :: rest =>
    if c = '"' then some ([], rest)
    else if c = '\\' then
      match rest with
      | [] => none
      | e :: r =>
        if e = '"' then consFst '"' (parseStringChars fuel r)
        else if e = '\\' then consFst '\\' (parseStringChars fuel r)
        else if e = '/' then consFst '/' (parseStringChars fuel r)
        else if e = 'b' then consFst (Char.ofNat 8) (parseStringChars fuel r)
        else if e = 'f' then consFst (Char.ofNat 12) (parseStringChars fuel r)
        else if e = 'n' then consFst '\n' (parseStringChars fuel r)
        else if e = 'r' then consFst '\r' (parseStringChars fuel r)
        else if e = 't' then consFst '\t' (parseStringChars fuel r)
        else if e = 'u' then
          match r with
          | h1 :: h2 :: h3 :: h4 :: r2 =>
            match hex4 h1 h2 h3 h4 with
            | none => none
            | some n =>
              consFst (decodeUnicodeEscape n r2).1
                (parseStringChars fuel (decodeUnicodeEscape n r2).2)
          | _ => none
        else none
    else if 0x20 ≤ c.toNat then consFst c (parseStringChars fuel rest)
    else none

/-- Value of a big-endian list of decimal digit characters. -/
def decimalValue (ds : List Char) : Nat :=
  ds.foldl (fun a c => 10 * a + (c.toNat - 48)) 0

/-- Optional leading minus sign of a JSON number. -/
def parseSign (cs : List Char) : Bool × List Char :=
  match cs with
  | '-' :: rest => (true, rest)
  | _ => (false, cs)

/-- Optional fraction part `.digits` after the integer part `ip`. -/
def parseFrac (ip : ℚ) (cs : List Char) : Option (ℚ × List Char) :=
  match cs with
  | '.' :: rest =>
    match rest.span Char.isDigit with
    | ([], _) => none
    | (fs, r) => some (ip + (decimalValue fs : ℚ) / ((10 : ℚ) ^ fs.length), r)
  | _ => some (ip, cs)

/-- Optional exponent part `e[+-]digits`. -/
def parseExp (q1 : ℚ) (cs : List Char) : Option (ℚ × List Char) :=
  match cs with
  | e :: rest =>
    if e = 'e' ∨ e = 'E' then
      let (esign, rest2) :=
        match rest with
        | '+' :: r => ((1 : Int), r)
        | '-' :: r => ((-1 : Int), r)
        | _ => ((1 : Int), rest)
      match rest2.span Char.isDigit with
      | ([], _) => none
      | (es, r) => some (q1 * (10 : ℚ) ^ (esign * (decimalValue es : Int)), r)
    else some (q1, cs)
  | [] => some (q1, cs)

/-- Integer digits (no leading zero), optional fraction, optional
exponent. -/
def parseUnsignedNumber (cs : List Char) : Option (ℚ × List Char) :=
  match cs.span Char.isDigit with
  | ([], _) => none
  | (d :: ds', cs2) =>
    if d = '0' ∧ ds' ≠ [] then none
    else
      match parseFrac ((decimalValue (d :: ds') : ℚ)) cs2 with
      | none => none
      | some (q1, cs3) => parseExp q1 cs3

/-- Parse a JSON number token at the head of the input: optional sign,
integer digits with no leading zero, optional fraction, optional
exponent. -/
def parseNumber (cs : List Char) : Option (ℚ × List Char) :=
  let (neg, cs1) := parseSign cs
  match parseUnsignedNumber cs1 with
  | none => none
  | some (q, cs2) => some (if neg then -q else q, cs2)

/-- Recursion mode of the JSON value parser: a value, the elements of a
non-empty array (returned as `.arr`), or the members of a non-empty object
(returned as `.obj`). -/
inductive PMode where
  | value
  | elems
  | members

/-- Fuel-indexed recursive-descent JSON parser.  In `.value` mode it parses
one value (leading whitespace allowed); `.elems` parses `e (, e)* ]`;
`.members` parses `"k" : v (, "k" : v)* }`. -/
def parseCore : Nat → PMode → List Char → Option (JSValue × List Char)
  | 0, _, _ => none
  | fuel + 1, .value, cs =>
    match skipWs cs with
    | [] => none
    | c :: rest =>
      if c = 'n' then
        match rest with
        | 'u' :: 'l' :: 'l' :: r => some (.null, r)
        | _ => none
      else if c = 't' then
        match rest with
        | 'r' :: 'u' :: 'e' :: r => some (.bool true, r)
        | _ => none
      else if c = 'f' then
        match rest with
        | 'a' :: 'l' :: 's' :: 'e' :: r => some (.bool false, r)
        | _ => none
      else if c = '"' then
        match parseStringChars (rest.length + 1) rest with
        | some (l, r) => some (.str (String.mk l), r)
        | none => none
      else if c = '[' then
        match skipWs rest with
        | ']' :: r => some (.arr [], r)
        | cs' => parseCore fuel .elems cs'
      else if c = '{' then
        match skipWs rest with
        | '}' :: r => some (.obj [], r)
        | cs' => parseCore fuel .members cs'
      else if c = '-' ∨ c.isDigit then
        match parseNumber (c :: rest) with
        | some (q, r) => some (.num q, r)
        | none => none
      else none
  | fuel + 1, .elems, cs =>
    match parseCore fuel .value cs with
    | some (v, r) =>
      match skipWs r with
      | ',' :: r2 =>
        match parseCore fuel .elems r2 with
        | some (.arr xs, r3) => some (.arr (v :: xs), r3)
        | _ => none
      | ']' :: r2 => some (.arr [v], r2)
      | _ => none
    | none => none
  | fuel + 1, .members, cs =>
    match cs with
    | '"' :: r =>
      match parseStringChars (r.length + 1) r with
      | some (key, r2) =>
        match skipWs r2 with
        | ':' :: r3 =>
          match parseCore fuel .value r3 with
          | some (v, r4) =>
            match skipWs r4 with
            | ',' :: r5 =>
              match parseCore fuel .members (skipWs r5) with
              | some (.obj fs, r6) => some (.obj ((String.mk key, v) :: fs), r6)
              | _ => none
            | '}' :: r5 => some (.obj [(String.mk key, v)], r5)
            | _ => none
          | none => none
        | _ => none
      | none => none
    | _ => none

/-- Parse one JSON value. -/
def parseValue (fuel : Nat) (cs : List Char) : Option (JSValue × List Char) :=
  parseCore fuel .value cs

/-- `JSON.parse`: the whole input must be whitespace, one value, whitespace.
The fuel `length + 1` dominates the number of recursive steps, each of which
consumes at least one character. -/
def jsonParse (cs : List Char) : Option JSValue :=
  match parseValue (cs.length + 1) cs with
  | some (v, rest) => if skipWs rest = [] then some v else none
  | none => none

/-! ## JSON serialization (`JSON.stringify`, no indent argument) -/

def digitChar (d : Nat) : Char := Char.ofNat (48 + d)

def hexDigitChar (d : Nat) : Char :=
  if d < 10 then Char.ofNat (48 + d) else Char.ofNat (87 + d)

/-- Decimal digits of a natural number, big-endian. -/
def natChars (n : Nat) : List Char :=
  if n = 0 then ['0'] else (Nat.digits 10 n).reverse.map digitChar

/-- Digits of the terminating decimal expansion of `r / d` (`0 < r < d`);
JavaScript numbers are dyadic rationals, whose expansions terminate within
`d` digits of fuel. -/
def fracDigits : Nat → Nat → Nat → List Char
  | 0, _, _ => []
  | fuel + 1, r, d =>
    if r = 0 then []
    else digitChar (r * 10 / d) :: fracDigits fuel (r * 10 % d) d

/-- Serialization of a JSON number. -/
def numChars (q : ℚ) : List Char :=
  let sign : List Char := if q < 0 then ['-'] else []
  let n := q.num.natAbs
  let d := q.den
  if n % d = 0 then sign ++ natChars (n / d)
  else sign ++ natChars (n / d) ++ '.' :: fracDigits d (n % d) d

/-- `JSON.stringify` escaping of one string character: quote, backslash and
control characters are escaped, everything else is emitted literally. -/
def escapeChar (c : Char) : List Char :=
  if c = '"' then ['\\', '"']
  else if c = '\\' then ['\\', '\\']
  else if c.toNat = 8 then ['\\', 'b']
  else if c = '\t' then ['\\', 't']
  else if c = '\n' then ['\\', 'n']
  else if c.toNat = 12 then ['\\', 'f']
  else if c = '\r' then ['\\', 'r']
  else if c.toNat < 0x20 then
    ['\\', 'u', '0', '0', hexDigitChar (c.toNat / 16), hexDigitChar (c.toNat % 16)]
  else [c]

def escapeChars : List Char → List Char
  | [] => []
  | c :: cs => escapeChar c ++ escapeChars cs

def keyChars (k : String) : List Char := '"' :: (escapeChars k.data ++ ['"'])

mutual

def stringifyChars : JSValue → List Char
  | .null => ['n', 'u', 'l', 'l']
  | .bool b => if b then ['t', 'r', 'u', 'e'] else ['f', 'a', 'l', 's', 'e']
  | .num q => numChars q
  | .str s => '"' :: (escapeChars s.data ++ ['"'])
  | .arr xs => '[' :: (stringifyElems xs ++ [']'])
  | .obj fs => '{' :: (stringifyFields fs ++ ['}'])

def stringifyElems : List JSValue → List Char
  | [] => []
  | [x] => stringifyChars x
  | x :: xs => stringifyChars x ++ ',' :: stringifyElems xs

def stringifyFields : List (String × JSValue) → List Char
  | [] => []
  | [(k, v)] => keyChars k ++ ':' :: stringifyChars v
  | (k, v) :: fs => keyChars k ++ ':' :: stringifyChars v ++ ',' :: stringifyFields fs

end

/-! A value is `serializable` when all of its numbers are integers.
JavaScript serializations of records in the spec data model (integer scores)
satisfy this; the roundtrip theorems are stated for such values. -/

mutual

def serializable : JSValue → Bool
  | .null => true
  | .bool _ => true
  | .num q => q.den = 1
  | .str _ => true
  | .arr xs => serializableList xs
  | .obj fs => serializableFields fs

def serializableList : List JSValue → Bool
  | [] => true
  | x :: xs => serializable x && serializableList xs

def serializableFields : List (String × JSValue) → Bool
  | [] => true
  | (_, v) :: fs => serializable v && serializableFields fs

end

/-! `jsize` bounds the fuel needed by `parseValue` for a value. -/

mutual

def jsize : JSValue → Nat
  | .null => 1
  | .bool _ => 1
  | .num _ => 1
  | .str _ => 1
  | .arr xs => match xs with
    | [] => 1
    | _ => elsize xs + 1
  | .obj fs => match fs with
    | [] => 1
    | _ => msize fs + 1

def elsize : List JSValue → Nat
  | [] => 1
  | x :: xs => max (jsize x) (elsize xs) + 1

def msize : List (String × JSValue) → Nat
  | [] => 1
  | (_, v) :: fs => max (jsize v) (msize fs) + 1

end

/-! ## `repairJSON` and the `parseAIFeedback` fallback chain

JavaScript string/regex operations are modelled as character-list
transducers.  `jsWs` is the JavaScript whitespace class (used both by
`String.trim` and by `\s` in the repair regexes); each `replace(..., g)` is
a left-to-right scan that rewrites every match and resumes after the
replaced span, exactly as a global regex replace does. -/

/-- JavaScript whitespace (`String.trim` / regex `\s`). -/
def jsWs (c : Char) : Bool :=
  c = ' ' || c = '\t' || c = '\n' || c = '\r' || c.toNat = 0x0B || c.toNat = 0x0C ||
  c.toNat = 0xA0 || c.toNat = 0x1680 || (0x2000 ≤ c.toNat && c.toNat ≤ 0x200A) ||
  c.toNat = 0x2028 || c.toNat = 0x2029 || c.toNat = 0x202F || c.toNat = 0x205F ||
  c.toNat = 0x3000 || c.toNat = 0xFEFF

def jsTrim (cs : List Char) : List Char :=
  ((cs.dropWhile jsWs).reverse.dropWhile jsWs).reverse

def dropWhileEndWs (cs : List Char) : List Char := (cs.reverse.dropWhile jsWs).reverse

/-- The trailing-fence replace `/\s*```$/ → ''`: applies only when the text
ends in a literal ` ``` `, and then also removes the whitespace run in front
of it. -/
def stripTrailingFence (cs : List Char) : List Char :=
  if "```".toList.isSuffixOf cs then dropWhileEndWs (cs.take (cs.length - 3)) else cs

/-- The markdown-fence stripping of `parseAIFeedback`
(json-validator.ts lines 167-171): a leading ` ```json ` or ` ``` ` plus
following whitespace is removed, then a trailing fence if present. -/
def stripCodeBlock (cs : List Char) : List Char :=
  if "```json".toList.isPrefixOf cs then
    stripTrailingFence ((cs.drop 7).dropWhile jsWs)
  else if "```".toList.isPrefixOf cs then
    stripTrailingFence ((cs.drop 3).dropWhile jsWs)
  else cs

/-- The strategy-2 regex `/\{[\s\S]*\}/` (json-validator.ts line 185): the
greedy match runs from the first `{` to the last `}` when the first `{`
comes before the last `}`; otherwise there is no match. -/
def extractJson (cs : List Char) : Option (List Char) :=
  let pre := cs.dropWhile (· ≠ '{')
  let m := (pre.reverse.dropWhile (· ≠ '}')).reverse
  if m.isEmpty then none else some m

/-- Lookahead `(?=\s*[,}])`. -/
def lookaheadCommaBrace (cs : List Char) : Bool :=
  match cs.dropWhile jsWs with
  | ',' :: _ => true
  | '}' :: _ => true
  | _ => false

/-- Lazy capture `([^"]*?)` of repair regex 1: shortest run of non-quote
characters after which the lookahead holds. -/
def r1Cap : List Char → Option (List Char × List Char)
  | [] => none
  | c :: rest =>
    if lookaheadCommaBrace (c :: rest) then some ([], c :: rest)
    else if c = '"' then none
    else (r1Cap rest).map (fun p => (c :: p.1, p.2))

/-- Repair regex 1, `/:\s*"([^"]*?)(?=\s*[,}])/g → ': "$1"'` (close an
unterminated string before a comma or closing brace). -/
def fixStrings : Nat → List Char → List Char
  | 0, cs => cs
  | _ + 1, [] => []
  | fuel + 1, c :: rest =>
    if c = ':' then
      match rest.dropWhile jsWs with
      | '"' :: body =>
        match r1Cap body with
        | some (cap, after) => ':' :: ' ' :: '"' :: (cap ++ '"' :: fixStrings fuel after)
        | none => c :: fixStrings fuel rest
      | _ => c :: fixStrings fuel rest
    else c :: fixStrings fuel rest

/-- Repair regex 2, `/}\s*"([^"]+)":\s*/g → '}, "$1": '` (insert a missing
comma between object properties). -/
def fixObjCommas : Nat → List Char → List Char
  | 0, cs => cs
  | _ + 1, [] => []
  | fuel + 1, c :: rest =>
    if c = '}' then
      match rest.dropWhile jsWs with
      | '"' :: body =>
        match body.span (· ≠ '"') with
        | ([], _) => c :: fixObjCommas fuel rest
        | (cap, '"' :: ':' :: r2) =>
          '}' :: ',' :: ' ' :: '"' :: (cap ++ '"' :: ':' :: ' ' :: fixObjCommas fuel (r2.dropWhile jsWs))
        | _ => c :: fixObjCommas fuel rest
      | _ => c :: fixObjCommas fuel rest
    else c :: fixObjCommas fuel rest

/-- Repair regex 3, `/}\s*{/g → '}, {'` (insert a missing comma between
array elements). -/
def fixBraceCommas : Nat → List Char → List Char
  | 0, cs => cs
  | _ + 1, [] => []
  | fuel + 1, c :: rest =>
    if c = '}' then
      match rest.dropWhile jsWs with
      | '{' :: r2 => '}' :: ',' :: ' ' :: '{' :: fixBraceCommas fuel r2
      | _ => c :: fixBraceCommas fuel rest
    else c :: fixBraceCommas fuel rest

/-- Repair regex 4, `/,(\s*[}\]])/g → '$1'` (remove a trailing comma). -/
def fixTrailingCommas : Nat → List Char → List Char
  | 0, cs => cs
  | _ + 1, [] => []
  | fuel + 1, c :: rest =>
    if c = ',' then
      let ws := rest.takeWhile jsWs
      match rest.dropWhile jsWs with
      | '}' :: r2 => ws ++ '}' :: fixTrailingCommas fuel r2
      | ']' :: r2 => ws ++ ']' :: fixTrailingCommas fuel r2
      | _ => c :: fixTrailingCommas fuel rest
    else c :: fixTrailingCommas fuel rest

/-- Split a quoted run at its last newline (`"([^"]*)\n([^"]*)"` backtracks
the first greedy group to the last `\n`). -/
def splitLastNewline (run : List Char) : Option (List Char × List Char) :=
  let rev := run.reverse
  let g2rev := rev.takeWhile (· ≠ '\n')
  if g2rev.length = run.length then none
  else some (((rev.drop (g2rev.length + 1)).reverse), g2rev.reverse)

/-- Repair regex 5, `/"([^"]*)\n([^"]*)"/g → '"$1\\n$2"'` (escape the last
bare newline between two quotes). -/
def fixNewlines : Nat → List Char → List Char
  | 0, cs => cs
  | _ + 1, [] => []
  | fuel + 1, c :: rest =>
    if c = '"' then
      match rest.span (· ≠ '"') with
      | (run, '"' :: r2) =>
        match splitLastNewline run with
        | some (g1, g2) =>
          '"' :: (g1 ++ '\\' :: 'n' :: g2 ++ '"' :: fixNewlines fuel r2)
        | none => c :: fixNewlines fuel rest
      | _ => c :: fixNewlines fuel rest
    else c :: fixNewlines fuel rest

/-- `repairJSON` (json-validator.ts lines 81-110): trim, cut to the
outermost braces, then the five regex repairs in source order. -/
def repairJSON (cs : List Char) : List Char :=
  let r0 := jsTrim cs
  let r1 := if r0.contains '{' then r0.dropWhile (· ≠ '{') else r0
  let r2 := if r1.contains '}' then (r1.reverse.dropWhile (· ≠ '}')).reverse else r1
  let r3 := fixStrings (r2.length + 1) r2
  let r4 := fixObjCommas (r3.length + 1) r3
  let r5 := fixBraceCommas (r4.length + 1) r4
  let r6 := fixTrailingCommas (r5.length + 1) r5
  fixNewlines (r6.length + 1) r6

/-- Strategy 1 of `parseAIFeedback`: `JSON.parse` on the fence-stripped
text, accepted only if it validates. -/
def directAttempt (pt : List Char) : Option JSValue :=
  match jsonParse pt with
  | some v => if validateFeedbackStructure v then some v else none
  | none => none

/-- Strategy 2: `JSON.parse` on the regex-extracted brace span. -/
def regexAttempt (pt : List Char) : Option JSValue :=
  match extractJson pt with
  | some m =>
    match jsonParse m with
    | some v => if validateFeedbackStructure v then some v else none
    | none => none
  | none => none

/-- Strategy 3: `JSON.parse` on the repaired brace span (only attempted
when the regex found a span, as in the source). -/
def repairAttempt (pt : List Char) : Option JSValue :=
  match extractJson pt with
  | some m =>
    match jsonParse (repairJSON m) with
    | some v => if validateFeedbackStructure v then some v else none
    | none => none
  | none => none

/-- Return type of `parseAIFeedback`.  The source declares
`feedback: FeedbackStructure | null` but every return site supplies a
non-null record, so the field is a plain `JSValue` here. -/
structure ParseResult where
  success : Bool
  feedback : JSValue
  method : String
  error : Option String

/-- `cleanedText`/`processedText` of `parseAIFeedback`
(json-validator.ts lines 161-171). -/
def processedOf (rawText : String) : List Char :=
  stripCodeBlock (jsTrim rawText.data)

/-- `parseAIFeedback` (json-validator.ts lines 155-215). -/
def parseAIFeedback (rawText : String) : ParseResult :=
  match directAttempt (processedOf rawText) with
  | some v => ⟨true, v, "direct", none⟩
  | none =>
    match regexAttempt (processedOf rawText) with
    | some v => ⟨true, v, "regex_extraction", none⟩
    | none =>
      match repairAttempt (processedOf rawText) with
      | some v => ⟨true, v, "repair", none⟩
      | none =>
        ⟨false, createFallbackFeedback "Unable to parse AI response", "fallback",
          some "All parsing strategies failed"⟩

/-! ## Basic facts about the validator and the fallback chain -/

theorem validate_fallback (msg : String) :
    validateFeedbackStructure (createFallbackFeedback msg) = true := rfl

theorem directAttempt_valid {pt : List Char} {v : JSValue}
    (h : directAttempt pt = some v) : validateFeedbackStructure v = true := by
  unfold directAttempt at h
  split at h
  · split at h
    · cases h; assumption
    · exact absurd h (by simp)
  · exact absurd h (by simp)

theorem regexAttempt_valid {pt : List Char} {v : JSValue}
    (h : regexAttempt pt = some v) : validateFeedbackStructure v = true := by
  unfold regexAttempt at h
  split at h
  · split at h
    · split at h
      · cases h; assumption
      · exact absurd h (by simp)
    · exact absurd h (by simp)
  · exact absurd h (by simp)

theorem repairAttempt_valid {pt : List Char} {v : JSValue}
    (h : repairAttempt pt = some v) : validateFeedbackStructure v = true := by
  unfold repairAttempt at h
  split at h
  · split at h
    · split at h
      · cases h; assumption
      · exact absurd h (by simp)
    · exact absurd h (by simp)
  · exact absurd h (by simp)

/-- Only objects can satisfy the validator. -/
theorem validate_obj {v : JSValue} (h : validateFeedbackStructure v = true) :
    ∃ f, v = .obj f := by
  cases v <;> simp_all [validateFeedbackStructure, truthy, isObjectType, getProp, sectionNames,
    validSection]

theorem mem_of_mem_dropWhile {p : Char → Bool} {c : Char} {l : List Char}
    (h : c ∈ l.dropWhile p) : c ∈ l := by
  have hsub : List.Sublist (l.dropWhile p) l := List.dropWhile_sublist p
  exact hsub.mem h

theorem parseCore_elems_shape {fuel : Nat} {cs r : List Char} {v : JSValue}
    (h : parseCore fuel .elems cs = some (v, r)) : ∃ xs, v = .arr xs := by
  cases fuel with
  | zero => exact absurd h (by simp [parseCore])
  | succ n =>
    unfold parseCore at h
    repeat' split at h
    all_goals first
      | (cases h; exact ⟨_, rfl⟩)
      | exact absurd h (by simp)

theorem parseCore_members_shape {fuel : Nat} {cs r : List Char} {v : JSValue}
    (h : parseCore fuel .members cs = some (v, r)) : ∃ fs, v = .obj fs := by
  cases fuel with
  | zero => exact absurd h (by simp [parseCore])
  | succ n =>
    unfold parseCore at h
    repeat' split at h
    all_goals first
      | (cases h; exact ⟨_, rfl⟩)
      | exact absurd h (by simp)

/-- The parser returns an object only if the input has an opening brace. -/
theorem parseValue_obj {fuel : Nat} {cs rest : List Char} {f : List (String × JSValue)}
    (h : parseValue fuel cs = some (.obj f, rest)) : '{' ∈ cs := by
  cases fuel with
  | zero => exact absurd h (by simp [parseValue, parseCore])
  | succ n =>
    unfold parseValue parseCore at h
    split at h
    · exact absurd h (by simp)
    · rename_i c cr hs
      have hmem : c ∈ cs := by
        have hcmem : c ∈ skipWs cs := by rw [hs]; exact List.mem_cons_self c cr
        exact mem_of_mem_dropWhile hcmem
      split_ifs at h <;> (try split at h) <;>
        first
          | exact absurd (parseCore_elems_shape h) (by simp)
          | simp_all [Option.map_eq_some']

theorem jsonParse_obj {cs : List Char} {f : List (String × JSValue)}
    (h : jsonParse cs = some (.obj f)) : '{' ∈ cs := by
  unfold jsonParse at h
  split at h
  next v rest hp =>
    split at h
    · cases h
      exact parseValue_obj hp
    · exact absurd h (by simp)
  next => exact absurd h (by simp)

theorem mem_of_mem_jsTrim {c : Char} {cs : List Char} (h : c ∈ jsTrim cs) : c ∈ cs := by
  unfold jsTrim at h
  rw [List.mem_reverse] at h
  have h2 := mem_of_mem_dropWhile h
  rw [List.mem_reverse] at h2
  exact mem_of_mem_dropWhile h2

theorem mem_of_mem_stripCodeBlock {c : Char} {cs : List Char}
    (h : c ∈ stripCodeBlock cs) : c ∈ cs := by
  have hfence : ∀ l : List Char, c ∈ stripTrailingFence l → c ∈ l := by
    intro l hl
    unfold stripTrailingFence at hl
    split at hl
    · unfold dropWhileEndWs at hl
      rw [List.mem_reverse] at hl
      have h2 := mem_of_mem_dropWhile hl
      rw [List.mem_reverse] at h2
      exact (List.take_sublist _ _).mem h2
    · exact hl
  unfold stripCodeBlock at h
  split at h
  · exact (List.drop_sublist 7 cs).mem (mem_of_mem_dropWhile (hfence _ h))
  · split at h
    · exact (List.drop_sublist 3 cs).mem (mem_of_mem_dropWhile (hfence _ h))
    · exact h

theorem mem_of_mem_processedOf {c : Char} {s : String} (h : c ∈ processedOf s) :
    c ∈ s.data :=
  mem_of_mem_jsTrim (mem_of_mem_stripCodeBlock h)

theorem directAttempt_none_of_no_brace {pt : List Char} (h : '{' ∉ pt) :
    directAttempt pt = none := by
  unfold directAttempt
  cases hp : jsonParse pt with
  | none => rfl
  | some v =>
    cases v with
    | obj f => exact absurd (jsonParse_obj hp) h
    | _ => simp [validateFeedbackStructure, truthy, isObjectType, getProp]

theorem extractJson_none_of_no_brace {pt : List Char} (h : '{' ∉ pt) :
    extractJson pt = none := by
  have hdrop : pt.dropWhile (· ≠ '{') = [] := by
    rw [List.dropWhile_eq_nil_iff]
    intro a ha
    simpa using fun (hEq : a = '{') => h (hEq ▸ ha)
  unfold extractJson
  rw [hdrop]
  rfl

/-- C1 helper: the result of `parseAIFeedback` by cases on the three
attempts. -/
theorem parseAIFeedback_eq (s : String) :
    (∃ v, directAttempt (processedOf s) = some v ∧
      parseAIFeedback s = ⟨true, v, "direct", none⟩) ∨
    (directAttempt (processedOf s) = none ∧ ∃ v, regexAttempt (processedOf s) = some v ∧
      parseAIFeedback s = ⟨true, v, "regex_extraction", none⟩) ∨
    (directAttempt (processedOf s) = none ∧ regexAttempt (processedOf s) = none ∧
      ∃ v, repairAttempt (processedOf s) = some v ∧
      parseAIFeedback s = ⟨true, v, "repair", none⟩) ∨
    (directAttempt (processedOf s) = none ∧ regexAttempt (processedOf s) = none ∧
      repairAttempt (processedOf s) = none ∧
      parseAIFeedback s = ⟨false, createFallbackFeedback "Unable to parse AI response",
        "fallback", some "All parsing strategies failed"⟩) := by
  unfold parseAIFeedback
  cases h1 : directAttempt (processedOf s) with
  | some v => exact Or.inl ⟨v, rfl, rfl⟩
  | none =>
    cases h2 : regexAttempt (processedOf s) with
    | some v => exact Or.inr (Or.inl ⟨rfl, v, rfl, rfl⟩)
    | none =>
      cases h3 : repairAttempt (processedOf s) with
      | some v => exact Or.inr (Or.inr (Or.inl ⟨rfl, rfl, v, rfl, rfl⟩))
      | none => exact Or.inr (Or.inr (Or.inr ⟨rfl, rfl, rfl, rfl⟩))

/-- C1: the feedback returned by `parseAIFeedback` always satisfies
`validateFeedbackStructure`, and when all three recovery stages fail the
result is the fallback: `success = false`, `method = "fallback"`, with the
feedback still schema-valid. -/
theorem feedback_always_valid_and_fallback_on_failure (s : String) :
    validateFeedbackStructure (parseAIFeedback s).feedback = true ∧
    (directAttempt (processedOf s) = none → regexAttempt (processedOf s) = none →
      repairAttempt (processedOf s) = none →
      (parseAIFeedback s).success = false ∧ (parseAIFeedback s).method = "fallback" ∧
      validateFeedbackStructure (parseAIFeedback s).feedback = true) := by
  rcases parseAIFeedback_eq s with ⟨v, hv, he⟩ | ⟨h1, v, hv, he⟩ | ⟨h1, h2, v, hv, he⟩ |
    ⟨h1, h2, h3, he⟩
  · refine ⟨by rw [he]; exact directAttempt_valid hv, ?_⟩
    intro hc; rw [hv] at hc; cases hc
  · refine ⟨by rw [he]; exact regexAttempt_valid hv, ?_⟩
    intro _ hc; rw [hv] at hc; cases hc
  · refine ⟨by rw [he]; exact repairAttempt_valid hv, ?_⟩
    intro _ _ hc; rw [hv] at hc; cases hc
  · exact ⟨by rw [he]; exact validate_fallback _,
      fun _ _ _ => ⟨by rw [he], by rw [he], by rw [he]; exact validate_fallback _⟩⟩

/-- C1 witness at a concrete input on which every recovery stage fails. -/
theorem feedback_always_valid_and_fallback_on_failure_witness :
    (parseAIFeedback "hello").success = false ∧
    (parseAIFeedback "hello").method = "fallback" ∧
    validateFeedbackStructure (parseAIFeedback "hello").feedback = true :=
  (feedback_always_valid_and_fallback_on_failure "hello").2 rfl rfl rfl

/-- C2: the validator accepts exactly the values described by the spec
invariant (`specValid`, written from the claim text): an object with a
numeric `overallScore`, all five sections present as objects with a numeric
`score` and an array of tips, every tip an object with `type` in
good/improve, a string `tip`, and (outside `ATS`) a string `explanation`. -/
theorem validator_iff_spec_invariant (v : JSValue) :
    validateFeedbackStructure v = true ↔ specValid v = true := by
  rw [validate_eq_specValid]

/-- C3: the validator is total and deterministic — on every value of the
JSON universe it returns one of the two booleans, and equal inputs give
equal outputs. -/
theorem validator_total_deterministic (v : JSValue) :
    (validateFeedbackStructure v = true ∨ validateFeedbackStructure v = false) ∧
    validateFeedbackStructure v = validateFeedbackStructure v := by
  refine ⟨?_, rfl⟩
  cases h : validateFeedbackStructure v
  · exact Or.inr rfl
  · exact Or.inl rfl

/-! ## Serialization/deserialization roundtrip

`JSON.parse (JSON.stringify v) = v` for values whose numbers are integers
(the spec data model's records).  Proved by induction on the parser fuel. -/

theorem digitChar_toNat : ∀ d, d < 10 → (digitChar d).toNat = 48 + d := by decide

theorem digitChar_isDigit : ∀ d, d < 10 → (digitChar d).isDigit = true := by decide

theorem foldl_digits (l : List Nat) (a : Nat) (h : ∀ d ∈ l, d < 10) :
    ((l.reverse.map digitChar).foldl (fun x c => 10 * x + (c.toNat - 48)) a)
      = a * 10 ^ l.length + Nat.ofDigits 10 l := by
  induction l generalizing a with
  | nil => simp
  | cons d ds ih =>
    have hd : d < 10 := h d (List.mem_cons_self d ds)
    have hds : ∀ x ∈ ds, x < 10 := fun x hx => h x (List.mem_cons_of_mem d hx)
    rw [List.reverse_cons, List.map_append, List.map_singleton, List.foldl_concat,
      ih a hds, Nat.ofDigits_cons, digitChar_toNat d hd]
    have : 48 + d - 48 = d := by omega
    rw [this, List.length_cons, pow_succ]
    ring

theorem decimalValue_natChars (n : Nat) : decimalValue (natChars n) = n := by
  by_cases h : n = 0
  · subst h; rfl
  · unfold natChars decimalValue
    rw [if_neg h, foldl_digits _ _ (fun d hd => Nat.digits_lt_base (by norm_num) hd)]
    simp [Nat.ofDigits_digits]

theorem natChars_isDigit {n : Nat} {c : Char} (h : c ∈ natChars n) : c.isDigit = true := by
  unfold natChars at h
  split at h
  · simp at h; subst h; rfl
  · obtain ⟨d, hd, hdc⟩ := List.mem_map.mp h
    exact hdc ▸ digitChar_isDigit d (Nat.digits_lt_base (by norm_num) (List.mem_reverse.mp hd))

theorem natChars_ne_nil (n : Nat) : natChars n ≠ [] := by
  unfold natChars
  split
  · simp
  · simp [Nat.digits_ne_nil_iff_ne_zero, *]

/-- The leading-zero check passes on canonical digits. -/
theorem natChars_no_leading_zero {n : Nat} {d : Char} {ds : List Char}
    (h : natChars n = d :: ds) : ¬(d = '0' ∧ ds ≠ []) := by
  rintro ⟨hd, hds⟩
  unfold natChars at h
  split at h
  · cases h; exact hds rfl
  · rename_i hn
    have hne : ((10 : Nat).digits n) ≠ [] := by
      simp [Nat.digits_ne_nil_iff_ne_zero, hn]
    have hhead : ∃ m rest, ((10 : Nat).digits n).reverse = m :: rest ∧ m ≠ 0 := by
      cases hrev : ((10 : Nat).digits n).reverse with
      | nil => simp_all [List.reverse_eq_nil_iff, Nat.digits_ne_nil_iff_ne_zero]
      | cons m rest =>
        refine ⟨m, rest, rfl, ?_⟩
        have h2 : ((10 : Nat).digits n).getLast? = some (((10 : Nat).digits n).getLast hne) :=
          List.getLast?_eq_getLast _ hne
        have h3 : ((10 : Nat).digits n).getLast? = some m := by
          rw [← List.head?_reverse, hrev]
          rfl
        have h4 : m = ((10 : Nat).digits n).getLast hne := by
          rw [h3] at h2
          injection h2
        rw [h4]
        exact Nat.getLast_digit_ne_zero 10 hn
    obtain ⟨m, rest, hrev, hm⟩ := hhead
    rw [hrev] at h
    simp only [List.map_cons, List.cons.injEq] at h
    have hm10 : m < 10 :=
      Nat.digits_lt_base (by norm_num) (List.mem_reverse.mp (by rw [hrev]; exact List.mem_cons_self m rest))
    have hzero : digitChar m = '0' := h.1.trans hd
    have h48 : (digitChar m).toNat = 48 := by rw [hzero]; rfl
    rw [digitChar_toNat m hm10] at h48
    omega

/-- Characters that may legally follow a serialized number token. -/
def restOk : List Char → Prop
  | [] => True
  | c :: _ => c.isDigit = false ∧ c ≠ '.' ∧ c ≠ 'e' ∧ c ≠ 'E'

theorem span_digits_natChars (n : Nat) (rest : List Char) (hrest : restOk rest) :
    (natChars n ++ rest).span Char.isDigit = (natChars n, rest) := by
  rw [List.span_eq_take_drop, List.takeWhile_append_of_pos (fun c hc => natChars_isDigit hc),
    List.dropWhile_append_of_pos (fun c hc => natChars_isDigit hc)]
  cases rest with
  | nil => simp
  | cons c t =>
    obtain ⟨hc, -, -, -⟩ := hrest
    simp [List.takeWhile_cons, List.dropWhile_cons, hc]

theorem parseSign_of_digit {d : Char} {t : List Char} (h : d.isDigit = true) :
    parseSign (d :: t) = (false, d :: t) := by
  unfold parseSign
  split
  · rename_i heq
    injection heq with h1 h2
    rw [h1] at h
    exact absurd h (by decide)
  · rfl

theorem parseFrac_stop {ip : ℚ} {cs : List Char}
    (h : ∀ t, cs ≠ '.' :: t) : parseFrac ip cs = some (ip, cs) := by
  unfold parseFrac
  split
  next t => exact absurd rfl (h t)
  next => rfl

theorem parseExp_stop {q : ℚ} {cs : List Char}
    (h : ∀ c t, cs = c :: t → ¬(c = 'e' ∨ c = 'E')) : parseExp q cs = some (q, cs) := by
  unfold parseExp
  split
  · rename_i e t
    rw [if_neg (h e t rfl)]
  · rfl

theorem parseUnsigned_natChars (n : Nat) (rest : List Char) (hrest : restOk rest) :
    parseUnsignedNumber (natChars n ++ rest) = some ((n : ℚ), rest) := by
  obtain ⟨d, ds, hnd⟩ : ∃ d ds, natChars n = d :: ds := by
    cases h : natChars n with
    | nil => exact absurd h (natChars_ne_nil n)
    | cons d ds => exact ⟨d, ds, rfl⟩
  have hspan := span_digits_natChars n rest hrest
  have hfrac : parseFrac ((n : ℚ)) rest = some ((n : ℚ), rest) := by
    apply parseFrac_stop
    intro t hEq
    rw [hEq] at hrest
    exact hrest.2.1 rfl
  have hexp : parseExp ((n : ℚ)) rest = some ((n : ℚ), rest) := by
    apply parseExp_stop
    intro c t hEq hce
    rw [hEq] at hrest
    rcases hce with hce | hce
    · exact hrest.2.2.1 hce
    · exact hrest.2.2.2 hce
  have hdec : decimalValue (d :: ds) = n := hnd ▸ decimalValue_natChars n
  rw [hnd, List.cons_append] at hspan
  simp only [parseUnsignedNumber, hnd, List.cons_append, hspan]
  rw [if_neg (natChars_no_leading_zero hnd)]
  simp only [hdec, hfrac, hexp]

/-- A digit-led input has no sign. -/
theorem parseSign_natChars (n : Nat) (rest : List Char) :
    parseSign (natChars n ++ rest) = (false, natChars n ++ rest) := by
  obtain ⟨d, ds, hnd⟩ : ∃ d ds, natChars n = d :: ds := by
    cases h : natChars n with
    | nil => exact absurd h (natChars_ne_nil n)
    | cons d ds => exact ⟨d, ds, rfl⟩
  have hdigit : d.isDigit = true := natChars_isDigit (hnd ▸ List.mem_cons_self d ds)
  rw [hnd, List.cons_append]
  exact parseSign_of_digit hdigit

/-- Roundtrip for serialized integer-valued rationals. -/
theorem parseNumber_numChars (q : ℚ) (hden : q.den = 1) (rest : List Char)
    (hrest : restOk rest) :
    parseNumber (numChars q ++ rest) = some (q, rest) := by
  have hnum : ((q.num : ℚ)) = q := (Rat.den_eq_one_iff q).mp hden
  have hnc : numChars q = (if q < 0 then ['-'] else []) ++ natChars q.num.natAbs := by
    unfold numChars
    rw [hden]
    simp [Nat.mod_one]
  by_cases hq : q < 0
  · have hneg : q.num ≤ 0 := by
      by_contra hpos
      have h0 : (0 : ℤ) ≤ q.num := by omega
      exact absurd (Rat.num_nonneg.mp h0) (not_le.mpr hq)
    have habs : ((q.num.natAbs : ℤ)) = -q.num := Int.ofNat_natAbs_of_nonpos hneg
    have hcast : ((q.num.natAbs : ℚ)) = -q := by
      have h1 : ((q.num.natAbs : ℚ)) = (((q.num.natAbs : ℤ)) : ℚ) :=
        (Int.cast_natCast q.num.natAbs).symm
      rw [h1, habs]
      push_cast
      rw [hnum]
    rw [hnc, if_pos hq, List.append_assoc, List.singleton_append]
    unfold parseNumber
    have hsign : parseSign ('-' :: (natChars q.num.natAbs ++ rest)) =
        (true, natChars q.num.natAbs ++ rest) := rfl
    simp only [hsign, parseUnsigned_natChars q.num.natAbs rest hrest]
    rw [hcast]
    simp
  · have hpos : (0 : ℤ) ≤ q.num := Rat.num_nonneg.mpr (not_lt.mp hq)
    have hcast : ((q.num.natAbs : ℚ)) = q := by
      have h1 : ((q.num.natAbs : ℤ)) = q.num := Int.natAbs_of_nonneg hpos
      have h2 : ((q.num.natAbs : ℚ)) = (((q.num.natAbs : ℤ)) : ℚ) :=
        (Int.cast_natCast q.num.natAbs).symm
      rw [h2, h1, hnum]
    rw [hnc, if_neg hq, List.nil_append]
    unfold parseNumber
    simp only [parseSign_natChars, parseUnsigned_natChars q.num.natAbs rest hrest]
    rw [hcast]
    simp

theorem escapeChar_length_pos (c : Char) : 1 ≤ (escapeChar c).length := by
  unfold escapeChar
  repeat' split
  all_goals simp

theorem escapeChars_length (l : List Char) : l.length ≤ (escapeChars l).length := by
  induction l with
  | nil => simp [escapeChars]
  | cons c cs ih =>
    simp only [escapeChars, List.length_append, List.length_cons]
    have := escapeChar_length_pos c
    omega

theorem fromHexDigit_hexDigitChar : ∀ d, d < 16 → fromHexDigit (hexDigitChar d) = some d := by
  decide

theorem parseStringChars_escape (l : List Char) : ∀ (fuel : Nat) (rest : List Char),
    l.length + 1 ≤ fuel →
    parseStringChars fuel (escapeChars l ++ '"' :: rest) = some (l, rest) := by
  induction l with
  | nil =>
    intro fuel rest hfuel
    cases fuel with
    | zero => omega
    | succ f => simp [escapeChars, parseStringChars]
  | cons c cs ih =>
    intro fuel rest hfuel
    cases fuel with
    | zero => omega
    | succ f =>
      have hf : cs.length + 1 ≤ f := by
        simp only [List.length_cons] at hfuel
        omega
      have ihf := ih f rest hf
      by_cases h1 : c = '"'
      · subst h1
        show parseStringChars (f + 1) ((escapeChar '"' ++ escapeChars cs) ++ '"' :: rest) =
          some ('"' :: cs, rest)
        rw [show escapeChar '"' = ['\\', '"'] from rfl]
        show parseStringChars (f + 1) ('\\' :: '"' :: (escapeChars cs ++ '"' :: rest)) = _
        rw [show ∀ r, parseStringChars (f + 1) ('\\' :: '"' :: r)
            = consFst '"' (parseStringChars f r) from fun r => rfl, ihf]
        rfl
      · by_cases h2 : c = '\\'
        · subst h2
          show parseStringChars (f + 1) ((escapeChar '\\' ++ escapeChars cs) ++ '"' :: rest) =
            some ('\\' :: cs, rest)
          rw [show escapeChar '\\' = ['\\', '\\'] from rfl]
          show parseStringChars (f + 1) ('\\' :: '\\' :: (escapeChars cs ++ '"' :: rest)) = _
          rw [show ∀ r, parseStringChars (f + 1) ('\\' :: '\\' :: r)
              = consFst '\\' (parseStringChars f r) from fun r => rfl, ihf]
          rfl
        · by_cases h3 : c.toNat = 8
          · have hc : c = Char.ofNat 8 := by rw [← h3, Char.ofNat_toNat]
            subst hc
            show parseStringChars (f + 1)
                ((escapeChar (Char.ofNat 8) ++ escapeChars cs) ++ '"' :: rest) = _
            rw [show escapeChar (Char.ofNat 8) = ['\\', 'b'] from rfl]
            show parseStringChars (f + 1) ('\\' :: 'b' :: (escapeChars cs ++ '"' :: rest)) = _
            rw [show ∀ r, parseStringChars (f + 1) ('\\' :: 'b' :: r)
                = consFst (Char.ofNat 8) (parseStringChars f r) from fun r => rfl, ihf]
            rfl
          · by_cases h4 : c = '\t'
            · subst h4
              show parseStringChars (f + 1)
                  ((escapeChar '\t' ++ escapeChars cs) ++ '"' :: rest) = _
              rw [show escapeChar '\t' = ['\\', 't'] from rfl]
              show parseStringChars (f + 1) ('\\' :: 't' :: (escapeChars cs ++ '"' :: rest)) = _
              rw [show ∀ r, parseStringChars (f + 1) ('\\' :: 't' :: r)
                  = consFst '\t' (parseStringChars f r) from fun r => rfl, ihf]
              rfl
            · by_cases h5 : c = '\n'
              · subst h5
                show parseStringChars (f + 1)
                    ((escapeChar '\n' ++ escapeChars cs) ++ '"' :: rest) = _
                rw [show escapeChar '\n' = ['\\', 'n'] from rfl]
                show parseStringChars (f + 1)
                    ('\\' :: 'n' :: (escapeChars cs ++ '"' :: rest)) = _
                rw [show ∀ r, parseStringChars (f + 1) ('\\' :: 'n' :: r)
                    = consFst '\n' (parseStringChars f r) from fun r => rfl, ihf]
                rfl
              · by_cases h6 : c.toNat = 12
                · have hc : c = Char.ofNat 12 := by rw [← h6, Char.ofNat_toNat]
                  subst hc
                  show parseStringChars (f + 1)
                      ((escapeChar (Char.ofNat 12) ++ escapeChars cs) ++ '"' :: rest) = _
                  rw [show escapeChar (Char.ofNat 12) = ['\\', 'f'] from rfl]
                  show parseStringChars (f + 1)
                      ('\\' :: 'f' :: (escapeChars cs ++ '"' :: rest)) = _
                  rw [show ∀ r, parseStringChars (f + 1) ('\\' :: 'f' :: r)
                      = consFst (Char.ofNat 12) (parseStringChars f r) from fun r => rfl, ihf]
                  rfl
                · by_cases h7 : c = '\r'
                  · subst h7
                    show parseStringChars (f + 1)
                        ((escapeChar '\r' ++ escapeChars cs) ++ '"' :: rest) = _
                    rw [show escapeChar '\r' = ['\\', 'r'] from rfl]
                    show parseStringChars (f + 1)
                        ('\\' :: 'r' :: (escapeChars cs ++ '"' :: rest)) = _
                    rw [show ∀ r, parseStringChars (f + 1) ('\\' :: 'r' :: r)
                        = consFst '\r' (parseStringChars f r) from fun r => rfl, ihf]
                    rfl
                  · by_cases h8 : c.toNat < 0x20
                    · -- \u00XX escape
                      have hesc : escapeChar c = ['\\', 'u', '0', '0',
                          hexDigitChar (c.toNat / 16), hexDigitChar (c.toNat % 16)] := by
                        unfold escapeChar
                        rw [if_neg h1, if_neg h2, if_neg h3, if_neg h4, if_neg h5, if_neg h6,
                          if_neg h7, if_pos h8]
                      rw [show escapeChars (c :: cs) = escapeChar c ++ escapeChars cs from rfl,
                        hesc]
                      show parseStringChars (f + 1)
                          ('\\' :: 'u' :: '0' :: '0' :: hexDigitChar (c.toNat / 16) ::
                            hexDigitChar (c.toNat % 16) :: (escapeChars cs ++ '"' :: rest)) = _
                      rw [show ∀ (a b : Char) (r : List Char),
                          parseStringChars (f + 1) ('\\' :: 'u' :: '0' :: '0' :: a :: b :: r) =
                            (match hex4 '0' '0' a b with
                             | none => none
                             | some n => consFst (decodeUnicodeEscape n r).1
                                 (parseStringChars f (decodeUnicodeEscape n r).2))
                          from fun a b r => rfl]
                      have hhex : hex4 '0' '0' (hexDigitChar (c.toNat / 16))
                          (hexDigitChar (c.toNat % 16)) = some c.toNat := by
                        unfold hex4
                        rw [show fromHexDigit '0' = some 0 from rfl,
                          fromHexDigit_hexDigitChar (c.toNat / 16) (by omega),
                          fromHexDigit_hexDigitChar (c.toNat % 16) (by omega)]
                        simp only [Option.bind_eq_bind, Option.some_bind]
                        congr 1
                        omega
                      rw [hhex]
                      have hdec : decodeUnicodeEscape c.toNat (escapeChars cs ++ '"' :: rest) =
                          (c, escapeChars cs ++ '"' :: rest) := by
                        unfold decodeUnicodeEscape
                        rw [if_neg (by omega), if_neg (by omega), Char.ofNat_toNat]
                      show consFst (decodeUnicodeEscape c.toNat (escapeChars cs ++ '"' :: rest)).1
                          (parseStringChars f
                            (decodeUnicodeEscape c.toNat (escapeChars cs ++ '"' :: rest)).2) =
                        some (c :: cs, rest)
                      rw [hdec, ihf]
                      rfl
                    · -- literal character
                      have hesc : escapeChar c = [c] := by
                        unfold escapeChar
                        rw [if_neg h1, if_neg h2, if_neg h3, if_neg h4, if_neg h5, if_neg h6,
                          if_neg h7, if_neg h8]
                      rw [show escapeChars (c :: cs) = escapeChar c ++ escapeChars cs from rfl,
                        hesc]
                      show parseStringChars (f + 1) (c :: (escapeChars cs ++ '"' :: rest)) = _
                      unfold parseStringChars
                      rw [if_neg h1, if_neg h2, if_pos (by omega : 0x20 ≤ c.toNat), ihf]
                      rfl

theorem numChars_head (q : ℚ) :
    ∃ c t, numChars q = c :: t ∧ (c = '-' ∨ c.isDigit = true) := by
  obtain ⟨d, ds, hnd⟩ : ∃ d ds, natChars (q.num.natAbs / q.den) = d :: ds := by
    cases h : natChars (q.num.natAbs / q.den) with
    | nil => exact absurd h (natChars_ne_nil _)
    | cons d ds => exact ⟨d, ds, rfl⟩
  have hd : d.isDigit = true := natChars_isDigit (hnd ▸ List.mem_cons_self d ds)
  unfold numChars
  by_cases hq : q < 0
  · rw [if_pos hq]
    simp only []
    split
    · exact ⟨'-', _, rfl, Or.inl rfl⟩
    · exact ⟨'-', _, rfl, Or.inl rfl⟩
  · rw [if_neg hq]
    simp only []
    split
    · rw [List.nil_append, hnd]
      exact ⟨d, ds, rfl, Or.inr hd⟩
    · rw [List.nil_append, hnd, List.cons_append]
      exact ⟨d, _, rfl, Or.inr hd⟩

/-- A sign or digit character is not JSON whitespace, nor a closing
bracket, brace, or one of the keyword/string/array/object openers. -/
theorem numStart_facts {c : Char} (h : c = '-' ∨ c.isDigit = true) :
    jsonWs c = false ∧ c ≠ ']' ∧ c ≠ '}' ∧ c ≠ 'n' ∧ c ≠ 't' ∧ c ≠ 'f' ∧
      c ≠ '"' ∧ c ≠ '[' ∧ c ≠ '{' := by
  rcases h with h | h
  · subst h
    refine ⟨by decide, by decide, by decide, by decide, by decide, by decide,
      by decide, by decide, by decide⟩
  · have hb : 48 ≤ c.toNat ∧ c.toNat ≤ 57 := by
      unfold Char.isDigit at h
      simp at h
      exact h
    have hws : jsonWs c = false := by
      cases hws : jsonWs c
      · rfl
      · unfold jsonWs at hws
        simp only [Bool.or_eq_true, decide_eq_true_eq] at hws
        rcases hws with ((h1 | h1) | h1) | h1 <;> subst h1 <;> exact absurd hb (by decide)
    refine ⟨hws, ?_, ?_, ?_, ?_, ?_, ?_, ?_, ?_⟩ <;>
      (intro h1; subst h1; exact absurd hb (by decide))

theorem stringifyChars_head (v : JSValue) :
    ∃ c t, stringifyChars v = c :: t ∧ jsonWs c = false ∧ c ≠ ']' ∧ c ≠ '}' := by
  cases v with
  | null => exact ⟨'n', _, rfl, by decide, by decide, by decide⟩
  | bool b =>
    cases b
    · exact ⟨'f', _, rfl, by decide, by decide, by decide⟩
    · exact ⟨'t', _, rfl, by decide, by decide, by decide⟩
  | num q =>
    obtain ⟨c, t, hct, hgood⟩ := numChars_head q
    obtain ⟨h1, h2, h3, -⟩ := numStart_facts hgood
    exact ⟨c, t, hct, h1, h2, h3⟩
  | str s => exact ⟨'"', _, rfl, by decide, by decide, by decide⟩
  | arr xs => exact ⟨'[', _, rfl, by decide, by decide, by decide⟩
  | obj fs => exact ⟨'{', _, rfl, by decide, by decide, by decide⟩

theorem skipWs_cons_of_neg {c : Char} {t : List Char} (h : jsonWs c = false) :
    skipWs (c :: t) = c :: t :=
  List.dropWhile_cons_of_neg (by simp [h])

theorem skipWs_stringify (v : JSValue) (rest : List Char) :
    skipWs (stringifyChars v ++ rest) = stringifyChars v ++ rest := by
  obtain ⟨c, t, hct, hws, -, -⟩ := stringifyChars_head v
  rw [hct, List.cons_append]
  exact skipWs_cons_of_neg hws

theorem stringifyElems_head {x : JSValue} {xs : List JSValue} :
    ∃ c t, stringifyElems (x :: xs) = c :: t ∧ jsonWs c = false ∧ c ≠ ']' := by
  obtain ⟨c, t, hct, hws, hb, -⟩ := stringifyChars_head x
  cases xs with
  | nil => exact ⟨c, t, hct, hws, hb⟩
  | cons y ys =>
    refine ⟨c, t ++ ',' :: stringifyElems (y :: ys), ?_, hws, hb⟩
    show stringifyChars x ++ ',' :: stringifyElems (y :: ys) = _
    rw [hct, List.cons_append]

theorem restOk_rb (r : List Char) : restOk (']' :: r) :=
  ⟨rfl, by decide, by decide, by decide⟩

theorem restOk_comma (r : List Char) : restOk (',' :: r) :=
  ⟨rfl, by decide, by decide, by decide⟩

theorem restOk_cb (r : List Char) : restOk ('}' :: r) :=
  ⟨rfl, by decide, by decide, by decide⟩

theorem serializableList_cons {x : JSValue} {xs : List JSValue}
    (h : serializableList (x :: xs) = true) :
    serializable x = true ∧ serializableList xs = true := by
  simpa [serializableList] using h

theorem serializableFields_cons {k : String} {v : JSValue} {fs : List (String × JSValue)}
    (h : serializableFields ((k, v) :: fs) = true) :
    serializable v = true ∧ serializableFields fs = true := by
  simpa [serializableFields] using h

theorem stringifyChars_length_pos (v : JSValue) : 1 ≤ (stringifyChars v).length := by
  obtain ⟨c, t, hct, -⟩ := stringifyChars_head v
  rw [hct]
  simp

theorem stringifyFields_head (k : String) (v : JSValue) (fs : List (String × JSValue)) :
    ∃ t, stringifyFields ((k, v) :: fs) = '"' :: t := by
  cases fs
  · exact ⟨_, rfl⟩
  · exact ⟨_, rfl⟩

/-- Parsing a serialized value (with fuel at least its length plus one)
consumes exactly the serialization, in every parser mode. -/
theorem parseCore_stringify (fuel : Nat) :
    (∀ v rest, serializable v = true → restOk rest →
      (stringifyChars v).length + 1 ≤ fuel →
      parseCore fuel .value (stringifyChars v ++ rest) = some (v, rest)) ∧
    (∀ xs rest, serializableList xs = true → xs ≠ [] →
      (stringifyElems xs).length + 2 ≤ fuel →
      parseCore fuel .elems (stringifyElems xs ++ ']' :: rest) = some (.arr xs, rest)) ∧
    (∀ fs rest, serializableFields fs = true → fs ≠ [] →
      (stringifyFields fs).length + 2 ≤ fuel →
      parseCore fuel .members (stringifyFields fs ++ '}' :: rest) = some (.obj fs, rest)) := by
  induction fuel with
  | zero =>
    refine ⟨?_, ?_, ?_⟩ <;> (intro a rest h1 h2 h3; omega)
  | succ f ih =>
    obtain ⟨ihP, ihQ, ihR⟩ := ih
    refine ⟨?_, ?_, ?_⟩
    · -- value mode
      intro v rest hser hrest hlen
      cases v with
      | null => rfl
      | bool b => cases b <;> rfl
      | num q =>
        have hden : q.den = 1 := by simpa [serializable] using hser
        obtain ⟨c, t, hct, hgood⟩ := numChars_head q
        obtain ⟨hws, hrb, hcb, hn, ht', hf', hq', hlb, hob⟩ := numStart_facts hgood
        show parseCore (f + 1) .value (numChars q ++ rest) = some (.num q, rest)
        simp only [parseCore]
        rw [show skipWs (numChars q ++ rest) = numChars q ++ rest from by
          rw [hct, List.cons_append]; exact skipWs_cons_of_neg hws]
        rw [hct, List.cons_append]
        split
        next heq => exact absurd heq (by simp)
        next c' rest' heq =>
          injection heq with h1 h2
          subst h1
          subst h2
          rw [if_neg hn, if_neg ht', if_neg hf', if_neg hq', if_neg hlb, if_neg hob,
            if_pos (by simpa using hgood)]
          rw [← List.cons_append, ← hct, parseNumber_numChars q hden rest hrest]
      | str s =>
        have hassoc : stringifyChars (.str s) ++ rest
            = '"' :: (escapeChars s.data ++ '"' :: rest) := by
          show '"' :: (escapeChars s.data ++ ['"']) ++ rest = _
          simp
        rw [hassoc]
        show (match parseStringChars ((escapeChars s.data ++ '"' :: rest).length + 1)
              (escapeChars s.data ++ '"' :: rest) with
          | some (l, r) => some (JSValue.str (String.mk l), r)
          | none => none) = some (.str s, rest)
        rw [parseStringChars_escape s.data _ rest (by
          have := escapeChars_length s.data
          simp only [List.length_append, List.length_cons]
          omega)]
      | arr xs =>
        cases xs with
        | nil => rfl
        | cons x xs' =>
          have hser' : serializableList (x :: xs') = true := by
            simpa [serializable] using hser
          have hlen' : (stringifyElems (x :: xs')).length + 2 ≤ f := by
            have h1 : stringifyChars (.arr (x :: xs'))
                = '[' :: (stringifyElems (x :: xs') ++ [']']) := rfl
            rw [h1] at hlen
            simp only [List.length_cons, List.length_append] at hlen
            omega
          obtain ⟨c, t, hct, hws, hrb⟩ :
              ∃ c t, stringifyElems (x :: xs') = c :: t ∧ jsonWs c = false ∧ c ≠ ']' :=
            stringifyElems_head
          have hassoc : stringifyChars (.arr (x :: xs')) ++ rest
              = '[' :: (stringifyElems (x :: xs') ++ ']' :: rest) := by
            show '[' :: (stringifyElems (x :: xs') ++ [']']) ++ rest = _
            simp
          rw [hassoc]
          show (match skipWs (stringifyElems (x :: xs') ++ ']' :: rest) with
            | ']' :: r => some (JSValue.arr [], r)
            | cs' => parseCore f .elems cs') = some (.arr (x :: xs'), rest)
          rw [show skipWs (stringifyElems (x :: xs') ++ ']' :: rest)
              = stringifyElems (x :: xs') ++ ']' :: rest from by
            rw [hct, List.cons_append]; exact skipWs_cons_of_neg hws]
          rw [hct, List.cons_append]
          split
          next r heq =>
            injection heq with h1 h2
            exact absurd h1 hrb
          next hne =>
            rw [← List.cons_append, ← hct]
            exact ihQ (x :: xs') rest hser' (by simp) hlen'
      | obj fs =>
        cases fs with
        | nil => rfl
        | cons kv fs' =>
          obtain ⟨k, v⟩ := kv
          have hser' : serializableFields ((k, v) :: fs') = true := by
            simpa [serializable] using hser
          have hlen' : (stringifyFields ((k, v) :: fs')).length + 2 ≤ f := by
            have h1 : stringifyChars (.obj ((k, v) :: fs'))
                = '{' :: (stringifyFields ((k, v) :: fs') ++ ['}']) := rfl
            rw [h1] at hlen
            simp only [List.length_cons, List.length_append] at hlen
            omega
          obtain ⟨t, hct⟩ := stringifyFields_head k v fs'
          have hassoc : stringifyChars (.obj ((k, v) :: fs')) ++ rest
              = '{' :: (stringifyFields ((k, v) :: fs') ++ '}' :: rest) := by
            show '{' :: (stringifyFields ((k, v) :: fs') ++ ['}']) ++ rest = _
            simp
          rw [hassoc]
          show (match skipWs (stringifyFields ((k, v) :: fs') ++ '}' :: rest) with
            | '}' :: r => some (JSValue.obj [], r)
            | cs' => parseCore f .members cs') = some (.obj ((k, v) :: fs'), rest)
          rw [show skipWs (stringifyFields ((k, v) :: fs') ++ '}' :: rest)
              = stringifyFields ((k, v) :: fs') ++ '}' :: rest from by
            rw [hct, List.cons_append]; exact skipWs_cons_of_neg (by decide)]
          rw [hct, List.cons_append]
          split
          next r heq =>
            injection heq with h1 h2
            exact absurd h1 (by decide)
          next hne =>
            rw [← List.cons_append, ← hct]
            exact ihR ((k, v) :: fs') rest hser' (by simp) hlen'
    · -- elems mode
      intro xs rest hser hne hlen
      cases xs with
      | nil => exact absurd rfl hne
      | cons x xs' =>
        obtain ⟨hsx, hsxs⟩ := serializableList_cons hser
        cases xs' with
        | nil =>
          have hlx : (stringifyChars x).length + 1 ≤ f := by
            have h1 : stringifyElems [x] = stringifyChars x := rfl
            rw [h1] at hlen
            omega
          show parseCore (f + 1) .elems (stringifyChars x ++ ']' :: rest)
              = some (.arr [x], rest)
          simp only [parseCore]
          rw [ihP x (']' :: rest) hsx (restOk_rb rest) hlx]
          rfl
        | cons y ys =>
          have hx1 : 1 ≤ (stringifyChars x).length := stringifyChars_length_pos x
          have hlenexp : (stringifyChars x).length + 1 + (stringifyElems (y :: ys)).length + 2
              ≤ f + 1 := by
            have h1 : stringifyElems (x :: y :: ys)
                = stringifyChars x ++ ',' :: stringifyElems (y :: ys) := rfl
            rw [h1] at hlen
            simp only [List.length_append, List.length_cons] at hlen
            omega
          have hlx : (stringifyChars x).length + 1 ≤ f := by omega
          have hlq : (stringifyElems (y :: ys)).length + 2 ≤ f := by omega
          have hassoc : stringifyElems (x :: y :: ys) ++ ']' :: rest
              = stringifyChars x ++ ',' :: (stringifyElems (y :: ys) ++ ']' :: rest) := by
            show (stringifyChars x ++ ',' :: stringifyElems (y :: ys)) ++ ']' :: rest = _
            simp
          rw [hassoc]
          simp only [parseCore]
          rw [ihP x (',' :: (stringifyElems (y :: ys) ++ ']' :: rest)) hsx (restOk_comma _) hlx]
          show (match parseCore f .elems (stringifyElems (y :: ys) ++ ']' :: rest) with
            | some (.arr xs, r3) => some (JSValue.arr (x :: xs), r3)
            | _ => none) = some (.arr (x :: y :: ys), rest)
          rw [ihQ (y :: ys) rest hsxs (by simp) hlq]
    · -- members mode
      intro fs rest hser hne hlen
      cases fs with
      | nil => exact absurd rfl hne
      | cons kv fs' =>
        obtain ⟨k, v⟩ := kv
        obtain ⟨hsv, hsfs⟩ := serializableFields_cons hser
        cases fs' with
        | nil =>
          have hlv : (stringifyChars v).length + 1 ≤ f := by
            have h1 : stringifyFields [(k, v)] = keyChars k ++ ':' :: stringifyChars v := rfl
            rw [h1] at hlen
            simp only [List.length_append, List.length_cons, keyChars] at hlen
            omega
          have hkey : stringifyFields [(k, v)] ++ '}' :: rest
              = '"' :: (escapeChars k.data ++ '"' :: (':' :: (stringifyChars v ++ '}' :: rest))) := by
            show ('"' :: (escapeChars k.data ++ ['"']) ++ ':' :: stringifyChars v) ++ '}' :: rest = _
            simp
          rw [hkey]
          show (match parseStringChars
                ((escapeChars k.data ++ '"' :: (':' :: (stringifyChars v ++ '}' :: rest))).length + 1)
                (escapeChars k.data ++ '"' :: (':' :: (stringifyChars v ++ '}' :: rest))) with
            | some (key, r2) =>
              (match skipWs r2 with
               | ':' :: r3 =>
                 (match parseCore f .value r3 with
                  | some (v', r4) =>
                    (match skipWs r4 with
                     | ',' :: r5 =>
                       (match parseCore f .members (skipWs r5) with
                        | some (JSValue.obj fs, r6) =>
                          some (JSValue.obj ((String.mk key, v') :: fs), r6)
                        | _ => none)
                     | '}' :: r5 => some (JSValue.obj [(String.mk key, v')], r5)
                     | _ => none)
                  | none => none)
               | _ => none)
            | none => none) = some (JSValue.obj [(k, v)], rest)
          rw [parseStringChars_escape k.data _ _ (by
            have := escapeChars_length k.data
            simp only [List.length_append, List.length_cons]
            omega)]
          show (match parseCore f .value (stringifyChars v ++ '}' :: rest) with
            | some (v', r4) =>
              (match skipWs r4 with
               | ',' :: r5 =>
                 (match parseCore f .members (skipWs r5) with
                  | some (.obj fs, r6) => some (JSValue.obj ((String.mk k.data, v') :: fs), r6)
                  | _ => none)
               | '}' :: r5 => some (JSValue.obj [(String.mk k.data, v')], r5)
               | _ => none)
            | none => none) = some (JSValue.obj [(k, v)], rest)
          rw [ihP v ('}' :: rest) hsv (restOk_cb rest) hlv]
          rfl
        | cons kv2 fs2 =>
          have hk1 : 2 ≤ (keyChars k).length := by
            simp [keyChars]
          have hlenexp : (keyChars k).length + 1 + (stringifyChars v).length + 1
              + (stringifyFields (kv2 :: fs2)).length + 2 ≤ f + 1 := by
            have h1 : stringifyFields ((k, v) :: kv2 :: fs2)
                = keyChars k ++ ':' :: stringifyChars v ++ ',' :: stringifyFields (kv2 :: fs2) := rfl
            rw [h1] at hlen
            simp only [List.length_append, List.length_cons] at hlen
            omega
          have hlv : (stringifyChars v).length + 1 ≤ f := by omega
          have hlr : (stringifyFields (kv2 :: fs2)).length + 2 ≤ f := by omega
          obtain ⟨k2, v2⟩ := kv2
          obtain ⟨t2, hct2⟩ := stringifyFields_head k2 v2 fs2
          have hkey : stringifyFields ((k, v) :: (k2, v2) :: fs2) ++ '}' :: rest
              = '"' :: (escapeChars k.data ++ '"' :: (':' :: (stringifyChars v
                ++ ',' :: (stringifyFields ((k2, v2) :: fs2) ++ '}' :: rest)))) := by
            show ('"' :: (escapeChars k.data ++ ['"']) ++ ':' :: stringifyChars v
              ++ ',' :: stringifyFields ((k2, v2) :: fs2)) ++ '}' :: rest = _
            simp
          rw [hkey]
          show (match parseStringChars
                ((escapeChars k.data ++ '"' :: (':' :: (stringifyChars v
                  ++ ',' :: (stringifyFields ((k2, v2) :: fs2) ++ '}' :: rest)))).length + 1)
                (escapeChars k.data ++ '"' :: (':' :: (stringifyChars v
                  ++ ',' :: (stringifyFields ((k2, v2) :: fs2) ++ '}' :: rest)))) with
            | some (key, r2) =>
              (match skipWs r2 with
               | ':' :: r3 =>
                 (match parseCore f .value r3 with
                  | some (v', r4) =>
                    (match skipWs r4 with
                     | ',' :: r5 =>
                       (match parseCore f .members (skipWs r5) with
                        | some (JSValue.obj fs, r6) =>
                          some (JSValue.obj ((String.mk key, v') :: fs), r6)
                        | _ => none)
                     | '}' :: r5 => some (JSValue.obj [(String.mk key, v')], r5)
                     | _ => none)
                  | none => none)
               | _ => none)
            | none => none) = some (JSValue.obj ((k, v) :: (k2, v2) :: fs2), rest)
          rw [parseStringChars_escape k.data _ _ (by
            have := escapeChars_length k.data
            simp only [List.length_append, List.length_cons]
            omega)]
          show (match parseCore f .value (stringifyChars v
              ++ ',' :: (stringifyFields ((k2, v2) :: fs2) ++ '}' :: rest)) with
            | some (v', r4) =>
              (match skipWs r4 with
               | ',' :: r5 =>
                 (match parseCore f .members (skipWs r5) with
                  | some (.obj fs, r6) => some (JSValue.obj ((String.mk k.data, v') :: fs), r6)
                  | _ => none)
               | '}' :: r5 => some (JSValue.obj [(String.mk k.data, v')], r5)
               | _ => none)
            | none => none) = some (JSValue.obj ((k, v) :: (k2, v2) :: fs2), rest)
          rw [ihP v (',' :: (stringifyFields ((k2, v2) :: fs2) ++ '}' :: rest)) hsv
            (restOk_comma _) hlv]
          show (match parseCore f .members
              (skipWs (stringifyFields ((k2, v2) :: fs2) ++ '}' :: rest)) with
            | some (.obj fs, r6) => some (JSValue.obj ((String.mk k.data, v) :: fs), r6)
            | _ => none) = some (.obj ((k, v) :: (k2, v2) :: fs2), rest)
          rw [show skipWs (stringifyFields ((k2, v2) :: fs2) ++ '}' :: rest)
              = stringifyFields ((k2, v2) :: fs2) ++ '}' :: rest from by
            rw [hct2, List.cons_append]; exact skipWs_cons_of_neg (by decide)]
          rw [ihR ((k2, v2) :: fs2) rest hsfs (by simp) hlr]

/-- `JSON.parse` inverts `JSON.stringify` on integer-numbered values. -/
theorem jsonParse_stringify (v : JSValue) (h : serializable v = true) :
    jsonParse (stringifyChars v) = some v := by
  unfold jsonParse parseValue
  have hp : parseCore ((stringifyChars v).length + 1) .value (stringifyChars v ++ [])
      = some (v, []) :=
    (parseCore_stringify ((stringifyChars v).length + 1)).1 v [] h trivial (by omega)
  rw [List.append_nil] at hp
  rw [hp]
  rfl

set_option maxRecDepth 8000

/-- C5: the fallback record is the fixed record the spec describes —
`overallScore = 50`, every section score 50, `ATS` holding exactly one
`improve` tip with the generic retry message and no explanation, the other
four sections holding exactly one `improve` tip "Manual review needed"
whose explanation embeds the diagnostic message — and on input with no
opening brace `parseAIFeedback` returns it with `success = false` and
`method = "fallback"`. -/
theorem fallback_record_shape_and_no_brace_fallback :
    (∀ msg : String,
      getProp (createFallbackFeedback msg) "overallScore" = some (.num 50) ∧
      (∀ name, name ∈ sectionNames →
        ∃ sec, getProp (createFallbackFeedback msg) name = some sec ∧
          getProp sec "score" = some (.num 50)) ∧
      (∃ ats, getProp (createFallbackFeedback msg) "ATS" = some ats ∧
        getProp ats "tips" = some (.arr [.obj [("type", .str "improve"),
          ("tip", .str "Upload failed - please try again")]])) ∧
      (∀ name, name ∈ (["toneAndStyle", "content", "structure", "skills"] : List String) →
        ∃ sec, getProp (createFallbackFeedback msg) name = some sec ∧
          getProp sec "tips" = some (.arr [.obj [("type", .str "improve"),
            ("tip", .str "Manual review needed"),
            ("explanation", .str (msg ++ ". Please try uploading your resume again or contact support if the issue persists."))]]))) ∧
    (∀ s : String, '{' ∉ s.data →
      (parseAIFeedback s).success = false ∧
      (parseAIFeedback s).method = "fallback" ∧
      getProp (parseAIFeedback s).feedback "overallScore" = some (.num 50)) := by
  constructor
  · intro msg
    refine ⟨rfl, ?_, ⟨_, rfl, rfl⟩, ?_⟩
    · intro name hname
      fin_cases hname <;> exact ⟨_, rfl, rfl⟩
    · intro name hname
      fin_cases hname <;> exact ⟨_, rfl, rfl⟩
  · intro s hs
    have hpt : '{' ∉ processedOf s := fun hmem => hs (mem_of_mem_processedOf hmem)
    have h1 := directAttempt_none_of_no_brace hpt
    have h2 : regexAttempt (processedOf s) = none := by
      unfold regexAttempt
      rw [extractJson_none_of_no_brace hpt]
    have h3 : repairAttempt (processedOf s) = none := by
      unfold repairAttempt
      rw [extractJson_none_of_no_brace hpt]
    have he : parseAIFeedback s =
        ⟨false, createFallbackFeedback "Unable to parse AI response", "fallback",
          some "All parsing strategies failed"⟩ := by
      unfold parseAIFeedback
      simp only [h1, h2, h3]
    rw [he]
    exact ⟨rfl, rfl, rfl⟩

/-- C5 witness: spec scenario B, `"I cannot process this request."` (no
braces) yields `success = false`, `method = "fallback"`, overall score 50,
and the fallback record projections at a concrete message. -/
theorem fallback_record_shape_and_no_brace_fallback_witness :
    getProp (createFallbackFeedback "Unable to parse AI response") "overallScore" =
      some (.num 50) ∧
    (parseAIFeedback "I cannot process this request.").success = false ∧
    (parseAIFeedback "I cannot process this request.").method = "fallback" ∧
    getProp (parseAIFeedback "I cannot process this request.").feedback "overallScore" =
      some (.num 50) :=
  ⟨(fallback_record_shape_and_no_brace_fallback.1 "Unable to parse AI response").1,
   (fallback_record_shape_and_no_brace_fallback.2 "I cannot process this request."
      (by decide)).1,
   (fallback_record_shape_and_no_brace_fallback.2 "I cannot process this request."
      (by decide)).2.1,
   (fallback_record_shape_and_no_brace_fallback.2 "I cannot process this request."
      (by decide)).2.2⟩

/-- A concrete AI response whose scores are out of the 0-100 integer range:
negative overall score, fractional ATS score, tone score above 100. -/
def extremeScoresText : String :=
  "\x7b\"overallScore\":-5,\"ATS\":\x7b\"score\":50.5,\"tips\":[]\x7d,\"toneAndStyle\":\x7b\"score\":200,\"tips\":[]\x7d,\"content\":\x7b\"score\":0,\"tips\":[]\x7d,\"structure\":\x7b\"score\":0,\"tips\":[]\x7d,\"skills\":\x7b\"score\":0,\"tips\":[]\x7d\x7d"

/-- C10: the validator imposes no range or integrality constraint on
scores — `parseAIFeedback` accepts (with `success = true`) a record whose
overall score is negative, whose ATS score is fractional and whose tone
score exceeds 100, and the validator holds on it. -/
theorem validator_accepts_out_of_range_scores :
    (parseAIFeedback extremeScoresText).success = true ∧
    validateFeedbackStructure (parseAIFeedback extremeScoresText).feedback = true ∧
    getProp (parseAIFeedback extremeScoresText).feedback "overallScore" =
      some (.num (-5)) ∧
    (∃ ats q, getProp (parseAIFeedback extremeScoresText).feedback "ATS" = some ats ∧
      getProp ats "score" = some (.num q) ∧ q = 101 / 2 ∧ ¬∃ n : ℤ, q = (n : ℚ)) ∧
    (∃ ts q, getProp (parseAIFeedback extremeScoresText).feedback "toneAndStyle" = some ts ∧
      getProp ts "score" = some (.num q) ∧ q = 200) := by
  have hq : ((decimalValue ['5', '0'] : ℚ) + (decimalValue ['5'] : ℚ) / 10 ^ (['5'].length))
      = 101 / 2 := by
    norm_num [decimalValue, show '5'.toNat = 53 from rfl, show '0'.toNat = 48 from rfl]
  refine ⟨rfl, rfl, rfl, ⟨_, _, rfl, rfl, ?_, ?_⟩, ⟨_, _, rfl, rfl, ?_⟩⟩
  · show ((decimalValue ['5', '0'] : ℚ) + (decimalValue ['5'] : ℚ) / 10 ^ (['5'].length))
      = 101 / 2
    exact hq
  · show ¬∃ n : ℤ,
      ((decimalValue ['5', '0'] : ℚ) + (decimalValue ['5'] : ℚ) / 10 ^ (['5'].length)) = (n : ℚ)
    rintro ⟨n, hn⟩
    rw [hq] at hn
    have h2 : (101 : ℚ) = (n : ℚ) * 2 := by
      field_simp at hn
      linarith
    have hz : (101 : ℤ) = n * 2 := by exact_mod_cast h2
    omega
  · show (decimalValue ['2', '0', '0'] : ℚ) = 200
    norm_num [decimalValue, show '2'.toNat = 50 from rfl, show '0'.toNat = 48 from rfl]

/-! ## The spec data model: FeedbackRecord

§3 of the spec: integer scores, five sections, ATS tips without
explanation, the other sections' tips with one.  `recordToJS` is the JSON
shape of such a record; its `JSON.stringify` serialization is "the JSON
serialization of a valid FeedbackRecord". -/

inductive TipKind where
  | good
  | improve

def TipKind.toStr : TipKind → String
  | .good => "good"
  | .improve => "improve"

structure FeedbackRecord where
  overallScore : Int
  atsScore : Int
  atsTips : List (TipKind × String)
  toneScore : Int
  toneTips : List (TipKind × String × String)
  contentScore : Int
  contentTips : List (TipKind × String × String)
  structureScore : Int
  structureTips : List (TipKind × String × String)
  skillsScore : Int
  skillsTips : List (TipKind × String × String)

def atsTipJS (t : TipKind × String) : JSValue :=
  .obj [("type", .str t.1.toStr), ("tip", .str t.2)]

def explTipJS (t : TipKind × String × String) : JSValue :=
  .obj [("type", .str t.1.toStr), ("tip", .str t.2.1), ("explanation", .str t.2.2)]

def sectionJS (score : Int) (tips : List JSValue) : JSValue :=
  .obj [("score", .num (score : ℚ)), ("tips", .arr tips)]

def recordToJS (r : FeedbackRecord) : JSValue :=
  .obj [("overallScore", .num (r.overallScore : ℚ)),
        ("ATS", sectionJS r.atsScore (r.atsTips.map atsTipJS)),
        ("toneAndStyle", sectionJS r.toneScore (r.toneTips.map explTipJS)),
        ("content", sectionJS r.contentScore (r.contentTips.map explTipJS)),
        ("structure", sectionJS r.structureScore (r.structureTips.map explTipJS)),
        ("skills", sectionJS r.skillsScore (r.skillsTips.map explTipJS))]

theorem validTip_ats (t : TipKind × String) : validTip true (atsTipJS t) = true := by
  obtain ⟨k, s⟩ := t
  cases k <;> rfl

theorem validTip_expl (t : TipKind × String × String) :
    validTip false (explTipJS t) = true := by
  obtain ⟨k, s, e⟩ := t
  cases k <;> rfl

theorem all_validTip_ats (l : List (TipKind × String)) :
    (l.map atsTipJS).all (validTip true) = true := by
  induction l with
  | nil => rfl
  | cons t ts ih => simp [List.map_cons, List.all_cons, validTip_ats t, ih]

theorem all_validTip_expl (l : List (TipKind × String × String)) :
    (l.map explTipJS).all (validTip false) = true := by
  induction l with
  | nil => rfl
  | cons t ts ih => simp [List.map_cons, List.all_cons, validTip_expl t, ih]

theorem validate_recordToJS (r : FeedbackRecord) :
    validateFeedbackStructure (recordToJS r) = true := by
  simp [validateFeedbackStructure, recordToJS, sectionJS, truthy, isObjectType,
    getProp, lookupField, sectionNames, validSection, all_validTip_ats, all_validTip_expl]

theorem serializable_atsTip (t : TipKind × String) : serializable (atsTipJS t) = true := rfl

theorem serializable_explTip (t : TipKind × String × String) :
    serializable (explTipJS t) = true := rfl

theorem serializableList_map_ats (l : List (TipKind × String)) :
    serializableList (l.map atsTipJS) = true := by
  induction l with
  | nil => rfl
  | cons t ts ih => simpa [serializableList, serializable_atsTip] using ih

theorem serializableList_map_expl (l : List (TipKind × String × String)) :
    serializableList (l.map explTipJS) = true := by
  induction l with
  | nil => rfl
  | cons t ts ih => simpa [serializableList, serializable_explTip] using ih

theorem serializable_recordToJS (r : FeedbackRecord) :
    serializable (recordToJS r) = true := by
  simp [recordToJS, sectionJS, serializable, serializableFields, serializableList,
    Rat.den_intCast, serializableList_map_ats, serializableList_map_expl]

theorem jsTrim_obj (fs : List (String × JSValue)) :
    jsTrim (stringifyChars (.obj fs)) = stringifyChars (.obj fs) := by
  show jsTrim ('{' :: (stringifyFields fs ++ ['}'])) = _
  unfold jsTrim
  rw [List.dropWhile_cons_of_neg (by decide)]
  have h1 : ('{' :: (stringifyFields fs ++ ['}'])).reverse
      = '}' :: ((stringifyFields fs).reverse ++ ['{']) := by simp
  rw [h1, List.dropWhile_cons_of_neg (by decide), ← h1, List.reverse_reverse]
  rfl

theorem stripCodeBlock_brace (cs : List Char) : stripCodeBlock ('{' :: cs) = '{' :: cs := rfl

theorem directAttempt_stringify (v : JSValue) (hser : serializable v = true)
    (hval : validateFeedbackStructure v = true) :
    directAttempt (stringifyChars v) = some v := by
  unfold directAttempt
  rw [jsonParse_stringify v hser]
  show (if validateFeedbackStructure v = true then some v else none) = some v
  rw [if_pos hval]

/-- C4: on input text that is exactly the JSON serialization of a valid
FeedbackRecord (spec data model §3: integer scores, string tips, ATS tips
without explanation), `parseAIFeedback` returns `success = true`,
`method = "direct"` and a feedback value field-for-field equal to the
serialized record. -/
theorem direct_parse_of_serialized_record (r : FeedbackRecord) :
    validateFeedbackStructure (recordToJS r) = true ∧
    parseAIFeedback (String.mk (stringifyChars (recordToJS r))) =
      ⟨true, recordToJS r, "direct", none⟩ := by
  refine ⟨validate_recordToJS r, ?_⟩
  have hpt : processedOf (String.mk (stringifyChars (recordToJS r)))
      = stringifyChars (recordToJS r) := by
    unfold processedOf
    show stripCodeBlock (jsTrim (stringifyChars (recordToJS r))) = _
    rw [show jsTrim (stringifyChars (recordToJS r)) = stringifyChars (recordToJS r) from
      jsTrim_obj _]
    show stripCodeBlock ('{' :: (stringifyFields _ ++ ['}'])) = _
    rw [stripCodeBlock_brace]
    rfl
  unfold parseAIFeedback
  rw [hpt, directAttempt_stringify (recordToJS r) (serializable_recordToJS r)
    (validate_recordToJS r)]

/-! ## Fenced code blocks (C6) -/

theorem jsTrim_wrap (pre suf : String) (S : List Char)
    (h1 : pre.data.dropWhile jsWs = pre.data)
    (h2 : pre.data.isEmpty = false)
    (h3 : suf.data.reverse.dropWhile jsWs = suf.data.reverse)
    (h4 : suf.data.reverse.isEmpty = false) :
    jsTrim (pre.data ++ (S ++ suf.data)) = pre.data ++ (S ++ suf.data) := by
  unfold jsTrim
  rw [List.dropWhile_append, h1, if_neg (by simp [h2])]
  rw [show (pre.data ++ (S ++ suf.data)).reverse
      = suf.data.reverse ++ (S.reverse ++ pre.data.reverse) from by simp]
  rw [List.dropWhile_append, h3, if_neg (by simp [h4])]
  simp

theorem stripTrailingFence_close (fs : List (String × JSValue)) :
    stripTrailingFence (stringifyChars (.obj fs) ++ "\n```".data)
      = stringifyChars (.obj fs) := by
  unfold stripTrailingFence
  rw [show ("```".toList.isSuffixOf (stringifyChars (.obj fs) ++ "\n```".data)) = true from by
    unfold List.isSuffixOf
    rw [List.reverse_append, show ("\n```".data).reverse = "```\n".data from rfl]
    rfl]
  rw [if_pos rfl]
  have htake : (stringifyChars (.obj fs) ++ "\n```".data).take
      ((stringifyChars (.obj fs) ++ "\n```".data).length - 3)
      = stringifyChars (.obj fs) ++ ['\n'] := by
    rw [List.length_append, show ("\n```".data).length = 4 from rfl,
      show (stringifyChars (.obj fs)).length + 4 - 3 = (stringifyChars (.obj fs)).length + 1
        from by omega,
      List.take_append 1]
    rfl
  rw [htake]
  unfold dropWhileEndWs
  rw [show (stringifyChars (.obj fs) ++ ['\n']).reverse
      = '\n' :: (stringifyChars (.obj fs)).reverse from by simp]
  show (List.dropWhile jsWs ((stringifyChars (.obj fs)).reverse)).reverse = _
  have hrev : (stringifyChars (.obj fs)).reverse
      = '}' :: ((stringifyFields fs).reverse ++ ['{']) := by
    show ('{' :: (stringifyFields fs ++ ['}'])).reverse = _
    simp
  rw [hrev, List.dropWhile_cons_of_neg (by decide), ← hrev, List.reverse_reverse]

theorem stripCodeBlock_jsonFence (fs : List (String × JSValue)) :
    stripCodeBlock ("```json\n".data ++ (stringifyChars (.obj fs) ++ "\n```".data))
      = stringifyChars (.obj fs) := by
  unfold stripCodeBlock
  rw [if_pos (show ("```json".toList.isPrefixOf
      ("```json\n".data ++ (stringifyChars (.obj fs) ++ "\n```".data))) = true from rfl)]
  show stripTrailingFence
      (List.dropWhile jsWs (stringifyChars (.obj fs) ++ "\n```".data)) = _
  rw [show List.dropWhile jsWs (stringifyChars (.obj fs) ++ "\n```".data)
      = stringifyChars (.obj fs) ++ "\n```".data from by
    show List.dropWhile jsWs ('{' :: (stringifyFields fs ++ ['}']) ++ "\n```".data) = _
    rw [List.cons_append, List.dropWhile_cons_of_neg (by decide), ← List.cons_append]
    rfl]
  exact stripTrailingFence_close fs

theorem stripCodeBlock_bareFence (fs : List (String × JSValue)) :
    stripCodeBlock ("```\n".data ++ (stringifyChars (.obj fs) ++ "\n```".data))
      = stringifyChars (.obj fs) := by
  unfold stripCodeBlock
  have hc1 : ("```json".toList.isPrefixOf
      ("```\n".data ++ (stringifyChars (.obj fs) ++ "\n```".data))) = false := rfl
  rw [if_neg (by simp [hc1])]
  rw [if_pos (show ("```".toList.isPrefixOf
      ("```\n".data ++ (stringifyChars (.obj fs) ++ "\n```".data))) = true from rfl)]
  show stripTrailingFence
      (List.dropWhile jsWs (stringifyChars (.obj fs) ++ "\n```".data)) = _
  rw [show List.dropWhile jsWs (stringifyChars (.obj fs) ++ "\n```".data)
      = stringifyChars (.obj fs) ++ "\n```".data from by
    show List.dropWhile jsWs ('{' :: (stringifyFields fs ++ ['}']) ++ "\n```".data) = _
    rw [List.cons_append, List.dropWhile_cons_of_neg (by decide), ← List.cons_append]
    rfl]
  exact stripTrailingFence_close fs

def sampleRecord : FeedbackRecord :=
  { overallScore := 82, atsScore := 90, atsTips := [(.good, "Strong keywords")],
    toneScore := 75,
    toneTips := [(.improve, "Vary sentence length", "Some sentences run long")],
    contentScore := 80, contentTips := [], structureScore := 70, structureTips := [],
    skillsScore := 60, skillsTips := [] }

/-- The JSON serialization of `sampleRecord` (a valid five-section record),
written out literally. -/
def sampleRecordText : String :=
  "\x7b\"overallScore\":82,\"ATS\":\x7b\"score\":90,\"tips\":[\x7b\"type\":\"good\",\"tip\":\"Strong keywords\"\x7d]\x7d,\"toneAndStyle\":\x7b\"score\":75,\"tips\":[\x7b\"type\":\"improve\",\"tip\":\"Vary sentence length\",\"explanation\":\"Some sentences run long\"\x7d]\x7d,\"content\":\x7b\"score\":80,\"tips\":[]\x7d,\"structure\":\x7b\"score\":70,\"tips\":[]\x7d,\"skills\":\x7b\"score\":60,\"tips\":[]\x7d\x7d"

theorem processedOf_jsonFence (r : FeedbackRecord) :
    processedOf (String.mk ("```json\n".data ++
        (stringifyChars (recordToJS r) ++ "\n```".data)))
      = stringifyChars (recordToJS r) := by
  unfold processedOf
  show stripCodeBlock (jsTrim ("```json\n".data ++
      (stringifyChars (recordToJS r) ++ "\n```".data))) = _
  rw [jsTrim_wrap "```json\n" "\n```" _ rfl rfl rfl rfl]
  exact stripCodeBlock_jsonFence _

theorem processedOf_bareFence (r : FeedbackRecord) :
    processedOf (String.mk ("```\n".data ++
        (stringifyChars (recordToJS r) ++ "\n```".data)))
      = stringifyChars (recordToJS r) := by
  unfold processedOf
  show stripCodeBlock (jsTrim ("```\n".data ++
      (stringifyChars (recordToJS r) ++ "\n```".data))) = _
  rw [jsTrim_wrap "```\n" "\n```" _ rfl rfl rfl rfl]
  exact stripCodeBlock_bareFence _

/-- C6 (amended): a fenced code block whose opening fence carries the tag
`json` — or no tag — around a serialized valid record is stripped and
parsed with `success = true`, `method = "direct"`.  (Any other language tag
is NOT stripped; see the counterexample.) -/
theorem fence_json_or_bare_direct (r : FeedbackRecord) :
    parseAIFeedback (String.mk ("```json\n".data ++
        (stringifyChars (recordToJS r) ++ "\n```".data)))
      = ⟨true, recordToJS r, "direct", none⟩ ∧
    parseAIFeedback (String.mk ("```\n".data ++
        (stringifyChars (recordToJS r) ++ "\n```".data)))
      = ⟨true, recordToJS r, "direct", none⟩ := by
  constructor
  · unfold parseAIFeedback
    rw [processedOf_jsonFence r, directAttempt_stringify _ (serializable_recordToJS r)
      (validate_recordToJS r)]
  · unfold parseAIFeedback
    rw [processedOf_bareFence r, directAttempt_stringify _ (serializable_recordToJS r)
      (validate_recordToJS r)]

/-- C6 counterexample: with language tag `javascript` the fence is NOT
fully stripped (only the three backticks are), the direct stage fails on
the leftover tag text, and the parse succeeds only via regex extraction —
refuting "any language tag ... succeeds via method 'direct'". -/
theorem fence_other_tag_not_direct :
    (parseAIFeedback ("```javascript\n" ++ sampleRecordText ++ "\n```")).success = true ∧
    (parseAIFeedback ("```javascript\n" ++ sampleRecordText ++ "\n```")).method
      = "regex_extraction" ∧
    ¬(parseAIFeedback ("```javascript\n" ++ sampleRecordText ++ "\n```")).method
      = "direct" := by
  refine ⟨rfl, rfl, ?_⟩
  intro h
  rw [show (parseAIFeedback ("```javascript\n" ++ sampleRecordText ++ "\n```")).method
      = "regex_extraction" from rfl] at h
  exact absurd h (by decide)

/-! ## Prose-wrapped JSON (C7) -/

/-- Characters that can begin a JSON value token. -/
def valueStarter (c : Char) : Bool :=
  c = 'n' || c = 't' || c = 'f' || c = '"' || c = '[' || c = '{' || c = '-' || c.isDigit

theorem jsonWs_ws {c : Char} (h : jsonWs c = true) : jsWs c = true := by
  unfold jsonWs at h
  simp only [Bool.or_eq_true, decide_eq_true_eq] at h
  rcases h with ((h | h) | h) | h <;> subst h <;> decide

theorem jsonWs_false_of_jsWs {c : Char} (h : jsWs c = false) : jsonWs c = false := by
  cases hjw : jsonWs c
  · rfl
  · rw [jsonWs_ws hjw] at h
    cases h

theorem parseCore_value_none {fuel : Nat} {b : Char} {bt : List Char}
    (hws : jsonWs b = false) (hvs : valueStarter b = false) :
    parseCore fuel .value (b :: bt) = none := by
  have h := hvs
  simp only [valueStarter, Bool.or_eq_false_iff, decide_eq_false_iff_not] at h
  obtain ⟨⟨⟨⟨⟨⟨⟨hn, ht⟩, hf⟩, hq⟩, hl⟩, hb⟩, hm⟩, hd⟩ := h
  cases fuel with
  | zero => rfl
  | succ f =>
    show parseCore (f + 1) .value (b :: bt) = none
    simp only [parseCore]
    rw [skipWs_cons_of_neg hws]
    split
    next heq => exact absurd heq (by simp)
    next c' rest' heq =>
      injection heq with h1 h2
      subst h1
      subst h2
      rw [if_neg hn, if_neg ht, if_neg hf, if_neg hq, if_neg hl, if_neg hb,
        if_neg (by simp [hm, hd])]

theorem jsonParse_head_none {b : Char} {bt : List Char}
    (hws : jsonWs b = false) (hvs : valueStarter b = false) :
    jsonParse (b :: bt) = none := by
  unfold jsonParse parseValue
  rw [parseCore_value_none hws hvs]

theorem extractJson_prose (fs : List (String × JSValue)) (pre post : List Char)
    (hpre : ∀ c ∈ pre, c ≠ '{')
    (hpost : ∀ c ∈ post, c ≠ '}') :
    extractJson (pre ++ (stringifyChars (.obj fs) ++ post))
      = some (stringifyChars (.obj fs)) := by
  unfold extractJson
  simp only []
  have h1 : (pre ++ (stringifyChars (.obj fs) ++ post)).dropWhile (· ≠ '{')
      = stringifyChars (.obj fs) ++ post := by
    rw [List.dropWhile_append_of_pos (by intro a ha; simpa using hpre a ha)]
    show List.dropWhile _ ('{' :: (stringifyFields fs ++ ['}']) ++ post) = _
    rw [List.cons_append, List.dropWhile_cons_of_neg (by simp)]
    rfl
  rw [h1]
  have hrev : (stringifyChars (.obj fs)).reverse
      = '}' :: ((stringifyFields fs).reverse ++ ['{']) := by
    show ('{' :: (stringifyFields fs ++ ['}'])).reverse = _
    simp
  have h2 : ((stringifyChars (.obj fs) ++ post).reverse).dropWhile (· ≠ '}')
      = (stringifyChars (.obj fs)).reverse := by
    rw [List.reverse_append, List.dropWhile_append_of_pos (by
      intro a ha
      simp only [List.mem_reverse] at ha
      simpa using hpost a ha)]
    rw [hrev, List.dropWhile_cons_of_neg (by simp), ← hrev]
  simp only [h2, List.reverse_reverse]
  rw [if_neg (by simp [show (stringifyChars (.obj fs)).isEmpty = false from rfl])]

theorem jsTrim_prose (fs : List (String × JSValue)) (b : Char) (bt after : List Char)
    (hws : jsWs b = false) :
    jsTrim ((b :: bt) ++ (stringifyChars (.obj fs) ++ after))
      = (b :: bt) ++ (stringifyChars (.obj fs) ++ (after.reverse.dropWhile jsWs).reverse) := by
  have hrev : (stringifyChars (.obj fs)).reverse
      = '}' :: ((stringifyFields fs).reverse ++ ['{']) := by
    show ('{' :: (stringifyFields fs ++ ['}'])).reverse = _
    simp
  unfold jsTrim
  rw [List.cons_append, List.dropWhile_cons_of_neg (by simp [hws]), ← List.cons_append]
  rw [show ((b :: bt) ++ (stringifyChars (.obj fs) ++ after)).reverse
      = after.reverse ++ ((stringifyChars (.obj fs)).reverse ++ (b :: bt).reverse) from by
    simp]
  rw [List.dropWhile_append]
  by_cases he : (after.reverse.dropWhile jsWs).isEmpty = true
  · rw [if_pos he]
    have hnil : after.reverse.dropWhile jsWs = [] := by
      cases hd : after.reverse.dropWhile jsWs
      · rfl
      · rw [hd] at he
        simp at he
    rw [hnil]
    rw [show (stringifyChars (.obj fs)).reverse ++ (b :: bt).reverse
        = '}' :: (((stringifyFields fs).reverse ++ ['{']) ++ (b :: bt).reverse) from by
      rw [hrev]; simp]
    rw [List.dropWhile_cons_of_neg (by decide)]
    rw [show '}' :: (((stringifyFields fs).reverse ++ ['{']) ++ (b :: bt).reverse)
        = (stringifyChars (.obj fs)).reverse ++ (b :: bt).reverse from by
      rw [hrev]; simp]
    simp
  · rw [if_neg he]
    simp

theorem stripCodeBlock_head (b : Char) (t : List Char) (hbt : b.toNat ≠ 96) :
    stripCodeBlock (b :: t) = b :: t := by
  obtain ⟨bq, hbq⟩ : ∃ bq, "`".data = [bq] := ⟨_, rfl⟩
  have hbq96 : bq.toNat = 96 := by
    have h0 : ("`".data.headD 'x').toNat = 96 := rfl
    rw [hbq] at h0
    simpa using h0
  have hne : (bq == b) = false := by
    apply beq_eq_false_iff_ne.mpr
    intro hEq
    exact hbt (hEq ▸ hbq96)
  have hsplit7 : "```json".toList = bq :: "``json".data := by
    rw [show "```json".toList = "`".data ++ "``json".data from rfl, hbq]
    rfl
  have hsplit3 : "```".toList = bq :: "``".data := by
    rw [show "```".toList = "`".data ++ "``".data from rfl, hbq]
    rfl
  have hp7 : ("```json".toList.isPrefixOf (b :: t)) = false := by
    rw [hsplit7]
    simp [List.isPrefixOf, hne]
  have hp3 : ("```".toList.isPrefixOf (b :: t)) = false := by
    rw [hsplit3]
    simp [List.isPrefixOf, hne]
  unfold stripCodeBlock
  rw [hp7, hp3]
  simp

/-- C7 (amended): a serialized valid record embedded in prose is recovered
via regex extraction when the prose contains no braces and opens with a
character that cannot begin a JSON value (so the direct stage fails) and is
not a backtick (so no fence stripping applies).  The original claim, for
arbitrary non-JSON prose, fails: a stray `}` in the trailing prose corrupts
the greedy first-`{`-to-last-`}` span (see the counterexample). -/
theorem prose_wrapped_regex_extraction (r : FeedbackRecord) (b : Char)
    (bt after : List Char)
    (hws : jsWs b = false) (hvs : valueStarter b = false) (hbq : b.toNat ≠ 96)
    (hbefore : ∀ c ∈ b :: bt, c ≠ '{' ∧ c ≠ '}')
    (hafter : ∀ c ∈ after, c ≠ '{' ∧ c ≠ '}') :
    parseAIFeedback (String.mk
        ((b :: bt) ++ (stringifyChars (recordToJS r) ++ after)))
      = ⟨true, recordToJS r, "regex_extraction", none⟩ := by
  have hA2 : ∀ c ∈ (after.reverse.dropWhile jsWs).reverse, c ≠ '{' ∧ c ≠ '}' := by
    intro c hc
    rw [List.mem_reverse] at hc
    have hc2 : c ∈ after.reverse := mem_of_mem_dropWhile hc
    rw [List.mem_reverse] at hc2
    exact hafter c hc2
  have hjt : jsTrim ((b :: bt) ++ (stringifyChars (recordToJS r) ++ after))
      = (b :: bt) ++ (stringifyChars (recordToJS r)
          ++ (after.reverse.dropWhile jsWs).reverse) :=
    jsTrim_prose _ b bt after hws
  have hext : extractJson ((b :: bt) ++ (stringifyChars (recordToJS r)
      ++ (after.reverse.dropWhile jsWs).reverse))
      = some (stringifyChars (recordToJS r)) :=
    extractJson_prose _ (b :: bt) _ (fun c hc => (hbefore c hc).1)
      (fun c hc => (hA2 c hc).2)
  have hpt : processedOf (String.mk
      ((b :: bt) ++ (stringifyChars (recordToJS r) ++ after)))
      = (b :: bt) ++ (stringifyChars (recordToJS r)
          ++ (after.reverse.dropWhile jsWs).reverse) := by
    unfold processedOf
    show stripCodeBlock (jsTrim
      ((b :: bt) ++ (stringifyChars (recordToJS r) ++ after))) = _
    rw [hjt, List.cons_append, stripCodeBlock_head b _ hbq]
  have hdir : directAttempt ((b :: bt) ++ (stringifyChars (recordToJS r)
      ++ (after.reverse.dropWhile jsWs).reverse)) = none := by
    unfold directAttempt
    rw [List.cons_append, jsonParse_head_none (jsonWs_false_of_jsWs hws) hvs]
  have hreg : regexAttempt ((b :: bt) ++ (stringifyChars (recordToJS r)
      ++ (after.reverse.dropWhile jsWs).reverse)) = some (recordToJS r) := by
    unfold regexAttempt
    rw [hext]
    show (match jsonParse (stringifyChars (recordToJS r)) with
      | some v => if validateFeedbackStructure v = true then some v else none
      | none => none) = some (recordToJS r)
    rw [jsonParse_stringify (recordToJS r) (serializable_recordToJS r)]
    show (if validateFeedbackStructure (recordToJS r) = true
        then some (recordToJS r) else none) = _
    rw [if_pos (validate_recordToJS r)]
  unfold parseAIFeedback
  simp only [hpt, hdir, hreg]

/-- C7 witness: scenario A's framing, "Here is the result: " followed by a
serialized record. -/
theorem prose_wrapped_regex_extraction_witness :
    parseAIFeedback (String.mk
        (('H' :: "ere is the result: ".data)
          ++ (stringifyChars (recordToJS sampleRecord) ++ [])))
      = ⟨true, recordToJS sampleRecord, "regex_extraction", none⟩ :=
  prose_wrapped_regex_extraction sampleRecord 'H' "ere is the result: ".data []
    (by decide) (by decide) (by decide) (by decide) (by decide)

/-- C7 counterexample: the embedded JSON is a valid record (it parses
directly on its own), the prose around it is not JSON, yet a stray `}` in
the trailing prose makes the greedy extraction span invalid, and the parse
falls back with `success = false` — refuting "for every text consisting of
a valid record surrounded by non-JSON prose, parse succeeds via
regex_extraction or repair". -/
theorem prose_wrapped_counterexample :
    (parseAIFeedback sampleRecordText).success = true ∧
    (parseAIFeedback sampleRecordText).method = "direct" ∧
    (parseAIFeedback ("See: " ++ sampleRecordText ++ " tail\x7d")).success = false ∧
    (parseAIFeedback ("See: " ++ sampleRecordText ++ " tail\x7d")).method = "fallback" :=
  ⟨rfl, rfl, rfl, rfl⟩

/-! ### The Resume controller (`src/unnamed/part_000`, `loadResume`)

The controller's effects are modelled by an environment record: `kv` is
Puter's key-value store (`kv.get` returns a string or null/undefined,
hence `Option String`), and `fsRead` is `fs.read`, which receives the raw
path value taken from the parsed record and returns a blob when the read
succeeds (`fs.read` yields a `Blob` object — always truthy — or
undefined, hence `Option`; the model's environment functions return
`none` for failure rather than throwing). One path inside the `try` block
does throw even under these benign environments: when the stored record
is the truthy string `"null"`, `JSON.parse` yields `null` and the
unguarded property read `data.resumePath` raises a TypeError, which the
outer `catch` converts into the boundary error reason
`"Failed to load resume: <message>"`. The TypeError's message text is
host-engine dependent, so it is a field of the environment
(`nullReadMsg`). No other parsed value throws there: a property read on a
string, number or boolean primitive yields `undefined` (falsy), and
`JSON.parse` never produces `undefined` itself. The second component of
the result records, in order, the path values passed to `fs.read`, so
that "no blob reads attempted" is statable. -/

structure PuterEnv where
  kv : String → Option String
  fsRead : JSValue → Option String
  nullReadMsg : String

/-- Terminal outcome of `loadResume`: either `setError msg`, or the ready
state carrying both blobs and the feedback value when `data.feedback` is
truthy. -/
inductive LoadResult where
  | err (msg : String)
  | ready (resumeBlob imageBlob : String) (feedback : Option JSValue)

/-- JavaScript truthiness of a property access `v[k]` (an absent property
reads as `undefined`, which is falsy). -/
def propTruthy (v : JSValue) (k : String) : Bool :=
  match getProp v k with
  | some w => truthy w
  | none => false

/-- The one parsed value on which the property read `data.resumePath`
throws (see the section comment). -/
def isNull : JSValue → Bool
  | .null => true
  | _ => false

/-- `loadResume` from the Resume controller (part_000 lines 28-101),
returning the terminal state together with the list of paths passed to
`fs.read`. A parsed `null` record reaches the outer `catch` and its
boundary error message. -/
def loadResume (env : PuterEnv) (id : String) : LoadResult × List JSValue :=
  match env.kv ("resume:" ++ id) with
  | none => (.err "Resume not found", [])
  | some resume =>
    if resume = "" then (.err "Resume not found", [])
    else
      match jsonParse resume.data with
      | none => (.err "Invalid resume data", [])
      | some data =>
        if isNull data then
          (.err ("Failed to load resume: " ++ env.nullReadMsg), [])
        else if !propTruthy data "resumePath" || !propTruthy data "imagePath" then
          (.err "Resume files missing", [])
        else
          match env.fsRead ((getProp data "resumePath").getD .null) with
          | none => (.err "Failed to load resume file",
                     [(getProp data "resumePath").getD .null])
          | some resumeBlob =>
            match env.fsRead ((getProp data "imagePath").getD .null) with
            | none => (.err "Failed to load resume image",
                       [(getProp data "resumePath").getD .null,
                        (getProp data "imagePath").getD .null])
            | some imageBlob =>
              (.ready resumeBlob imageBlob
                 (if propTruthy data "feedback" then getProp data "feedback" else none),
               [(getProp data "resumePath").getD .null,
                (getProp data "imagePath").getD .null])

/-- C8 (amended): (i) when the key-value store returns no entry (or the
falsy empty string) for `resume:<id>`, the controller reaches the
terminal error state with the "Resume not found" reason and attempts no
blob reads; (ii) every run ends either in the ready state or in an error
state whose reason is one of the five listed messages (no record found,
record fails to deserialize, record lacking a required path, document
blob unreadable, image blob unreadable) or — the sixth path the original
claim misses — the boundary catch message produced by a record that
deserializes to `null`; (iii) a record stored as the truthy string that
deserializes to `null` reaches exactly that boundary error, with no blob
reads; (iv) when a record is found, deserializes, carries truthy
`resumePath` and `imagePath`, and both blob reads succeed, the
controller reaches the ready state with those blobs. -/
theorem controller_error_reasons (env : PuterEnv) (id : String) :
    ((env.kv ("resume:" ++ id) = none ∨ env.kv ("resume:" ++ id) = some "") →
      loadResume env id = (.err "Resume not found", [])) ∧
    ((∃ msg, (loadResume env id).1 = .err msg ∧
        (msg ∈ ["Resume not found", "Invalid resume data", "Resume files missing",
                "Failed to load resume file", "Failed to load resume image"] ∨
         msg = "Failed to load resume: " ++ env.nullReadMsg)) ∨
      ∃ rb ib fb, (loadResume env id).1 = .ready rb ib fb) ∧
    (∀ resume,
      env.kv ("resume:" ++ id) = some resume → resume ≠ "" →
      jsonParse resume.data = some .null →
      loadResume env id
        = (.err ("Failed to load resume: " ++ env.nullReadMsg), [])) ∧
    (∀ resume data rb ib,
      env.kv ("resume:" ++ id) = some resume → resume ≠ "" →
      jsonParse resume.data = some data →
      propTruthy data "resumePath" = true →
      propTruthy data "imagePath" = true →
      env.fsRead ((getProp data "resumePath").getD .null) = some rb →
      env.fsRead ((getProp data "imagePath").getD .null) = some ib →
      ∃ fb, (loadResume env id).1 = .ready rb ib fb) := by
  refine ⟨?_, ?_, ?_, ?_⟩
  · rintro (h | h) <;> simp [loadResume, h]
  · unfold loadResume
    split
    · exact Or.inl ⟨_, rfl, Or.inl (by simp)⟩
    · split
      · exact Or.inl ⟨_, rfl, Or.inl (by simp)⟩
      · split
        · exact Or.inl ⟨_, rfl, Or.inl (by simp)⟩
        · split
          · exact Or.inl ⟨_, rfl, Or.inr rfl⟩
          · split
            · exact Or.inl ⟨_, rfl, Or.inl (by simp)⟩
            · split
              · exact Or.inl ⟨_, rfl, Or.inl (by simp)⟩
              · split
                · exact Or.inl ⟨_, rfl, Or.inl (by simp)⟩
                · exact Or.inr ⟨_, _, _, rfl⟩
  · intro resume hk hne hjp
    simp [loadResume, hk, hjp, if_neg hne, isNull]
  · intro resume data rb ib hk hne hjp hrp hip hfr hfi
    have hnn : isNull data = false := by
      cases data
      · simp [propTruthy, getProp] at hrp
      all_goals rfl
    simp only [loadResume, hk, hjp, hnn, hrp, hip, hfr, hfi, if_neg hne,
      Bool.not_true, Bool.or_self, Bool.false_eq_true, if_false]
    exact ⟨_, rfl⟩

/-- Concrete key-value store for the C8 witness: one record, `resume:abc`. -/
def kvRecordText : String :=
  "\x7b\"resumePath\":\"files/a.pdf\",\"imagePath\":\"files/a.png\"\x7d"

/-- Concrete controller environment for the C8 witness. -/
def envW : PuterEnv where
  kv k := if k = "resume:abc" then some kvRecordText else none
  fsRead v :=
    match v with
    | .str s =>
      if s = "files/a.pdf" then some "PDFBLOB"
      else if s = "files/a.png" then some "IMGBLOB"
      else none
    | _ => none
  nullReadMsg := "Cannot read properties of null"

/-- C8 witness: on the concrete environment, an unknown id gives the
terminal not-found error with no reads, and the stored id reaches ready
with both blobs. -/
theorem controller_error_reasons_witness :
    loadResume envW "missing" = (.err "Resume not found", []) ∧
    ∃ fb, (loadResume envW "abc").1 = .ready "PDFBLOB" "IMGBLOB" fb :=
  ⟨(controller_error_reasons envW "missing").1 (Or.inl rfl),
   (controller_error_reasons envW "abc").2.2.2 kvRecordText
     (.obj [("resumePath", .str "files/a.pdf"), ("imagePath", .str "files/a.png")])
     "PDFBLOB" "IMGBLOB" rfl (by decide) rfl rfl rfl rfl rfl⟩

/-- Environment whose store holds the literal string "null" under
`resume:abc` — exactly what `AdminActions.tsx` leaves behind when it
clears a record with `kv.set(key, null)`. -/
def envNull : PuterEnv where
  kv k := if k = "resume:abc" then some "null" else none
  fsRead _ := none
  nullReadMsg := "Cannot read properties of null"

/-- C8 counterexample: a stored record `"null"` is truthy, deserializes
to `null`, and the unguarded read `data.resumePath` sends the controller
to the outer catch — an error whose reason is NOT one of the five listed
messages, refuting "the controller reaches error exactly for the five
listed failure cases". -/
theorem controller_sixth_error_reason :
    loadResume envNull "abc"
        = (.err "Failed to load resume: Cannot read properties of null", []) ∧
    ∀ msg, msg ∈ ["Resume not found", "Invalid resume data", "Resume files missing",
        "Failed to load resume file", "Failed to load resume image"] →
      msg ≠ "Failed to load resume: Cannot read properties of null" :=
  ⟨rfl, by decide⟩

/-! ### The PDF rasterizer (`AdminActions.tsx`, `convertPdfToImage`)

The browser and library effects are modelled by an environment record,
one field per awaited step in source order: `loadPdfJs` (which rethrows
module-load failures as "PDF.js loading failed: <msg>"), `file.arrayBuffer()`,
`lib.getDocument(...).promise`, `pdf.getPage(1)`, `canvas.getContext`
(null or available), `page.render(...).promise`, and `canvas.toBlob`
(null or a blob, rendered as its object URL). A step that rejects carries
the `Error` message the environment would throw; the `try/catch` wraps
every thrown message as "Failed to convert PDF: <msg>", while the
`toBlob`-null branch resolves its result directly, unwrapped. -/

structure PdfFile where
  name : String
  ftype : String

structure PdfEnv where
  isBrowser : Bool
  libImport : Except String Unit
  arrayBuffer : Except String Nat
  getDocument : Except String Nat
  getPage : Except String Unit
  hasContext : Bool
  render : Except String Unit
  toBlob : Option String

structure ConversionResult where
  imageUrl : String
  file : Option String
  error : Option String

/-- JavaScript `String.prototype.includes` on character lists. -/
def hasSubstr : List Char → List Char → Bool
  | [], needle => needle.isEmpty
  | c :: rest, needle => needle.isPrefixOf (c :: rest) || hasSubstr rest needle

/-- `file.name.replace(/\.pdf$/i, "")`: drop a trailing `.pdf` extension,
case-insensitively. -/
def stripPdfExt (name : String) : String :=
  if ".pdf".data.isSuffixOf (name.data.map Char.toLower) then
    String.mk (name.data.take (name.data.length - 4))
  else name

/-- `convertPdfToImage` (AdminActions.tsx lines 241-336). The absent-file
guard models a null/undefined argument; the success branch names the
image `<original name without .pdf>.png`. -/
def convertPdfToImage : PdfEnv → Option PdfFile → ConversionResult
  | _, none => ⟨"", none, some "No file provided"⟩
  | env, some f =>
    if !hasSubstr f.ftype.data "pdf".data &&
        !(".pdf".data.isSuffixOf (f.name.data.map Char.toLower)) then
      ⟨"", none, some "File must be a PDF"⟩
    else if !env.isBrowser then
      ⟨"", none, some "PDF conversion is only available in the browser."⟩
    else
      match env.libImport with
      | .error m => ⟨"", none, some ("Failed to convert PDF: PDF.js loading failed: " ++ m)⟩
      | .ok _ =>
        match env.arrayBuffer with
        | .error m => ⟨"", none, some ("Failed to convert PDF: " ++ m)⟩
        | .ok _ =>
          match env.getDocument with
          | .error m => ⟨"", none, some ("Failed to convert PDF: " ++ m)⟩
          | .ok _ =>
            match env.getPage with
            | .error m => ⟨"", none, some ("Failed to convert PDF: " ++ m)⟩
            | .ok _ =>
              if !env.hasContext then
                ⟨"", none, some "Failed to convert PDF: Failed to obtain 2D canvas context."⟩
              else
                match env.render with
                | .error m => ⟨"", none, some ("Failed to convert PDF: " ++ m)⟩
                | .ok _ =>
                  match env.toBlob with
                  | none => ⟨"", none, some "Failed to create image blob"⟩
                  | some url => ⟨url, some (stripPdfExt f.name ++ ".png"), none⟩

/-- C9: the rasterizer is a total function into explicit result values
(never a raised exception — in the model, by the result type itself):
(i) an absent file yields the "No file provided" error result; (ii) a
file that neither carries a pdf type nor a `.pdf` filename (lowercased)
yields the "File must be a PDF" error result; (iii) outside a browser, a
file passing the type check yields the distinct environment error result;
(iv) on every input the result is either a success (an image URL, a file,
no error) or an error result with a message, empty imageUrl and null
file. -/
theorem rasterizer_explicit_results (env : PdfEnv) (file : Option PdfFile) :
    (convertPdfToImage env none = ⟨"", none, some "No file provided"⟩) ∧
    (∀ f, hasSubstr f.ftype.data "pdf".data = false →
      ".pdf".data.isSuffixOf (f.name.data.map Char.toLower) = false →
      convertPdfToImage env (some f) = ⟨"", none, some "File must be a PDF"⟩) ∧
    (∀ f, (hasSubstr f.ftype.data "pdf".data = true ∨
        ".pdf".data.isSuffixOf (f.name.data.map Char.toLower) = true) →
      env.isBrowser = false →
      convertPdfToImage env (some f) =
        ⟨"", none, some "PDF conversion is only available in the browser."⟩) ∧
    ((∃ url fname, convertPdfToImage env file = ⟨url, some fname, none⟩) ∨
      ∃ msg, convertPdfToImage env file = ⟨"", none, some msg⟩) := by
  refine ⟨rfl, ?_, ?_, ?_⟩
  · intro f h1 h2
    simp [convertPdfToImage, h1, h2]
  · intro f hor hb
    rcases hor with h | h <;> simp [convertPdfToImage, h, hb]
  · rcases file with _ | f
    · exact Or.inr ⟨_, rfl⟩
    · show (∃ url fname, convertPdfToImage env (some f) = ⟨url, some fname, none⟩) ∨ _
      unfold convertPdfToImage
      split
      · exact Or.inr ⟨_, rfl⟩
      · split
        · exact Or.inr ⟨_, rfl⟩
        · split
          · exact Or.inr ⟨_, rfl⟩
          · split
            · exact Or.inr ⟨_, rfl⟩
            · split
              · exact Or.inr ⟨_, rfl⟩
              · split
                · exact Or.inr ⟨_, rfl⟩
                · split
                  · exact Or.inr ⟨_, rfl⟩
                  · split
                    · exact Or.inr ⟨_, rfl⟩
                    · split
                      · exact Or.inr ⟨_, rfl⟩
                      · split
                        · exact Or.inr ⟨_, rfl⟩
                        · exact Or.inl ⟨_, _, rfl⟩

/-- Fully healthy environment for the C9 witness. -/
def pdfEnvOk : PdfEnv :=
  ⟨true, .ok (), .ok 1024, .ok 2, .ok (), true, .ok (), some "blob:image"⟩

/-- Same environment outside a browser, for the C9 witness. -/
def pdfEnvNoBrowser : PdfEnv :=
  ⟨false, .ok (), .ok 1024, .ok 2, .ok (), true, .ok (), some "blob:image"⟩

/-- C9 witness: a text file is rejected as not a PDF, and a genuine PDF
in a non-browser environment gets the environment error. -/
theorem rasterizer_explicit_results_witness :
    convertPdfToImage pdfEnvOk (some ⟨"notes.txt", "text/plain"⟩)
        = ⟨"", none, some "File must be a PDF"⟩ ∧
    convertPdfToImage pdfEnvNoBrowser (some ⟨"resume.pdf", "application/pdf"⟩)
        = ⟨"", none, some "PDF conversion is only available in the browser."⟩ :=
  ⟨(rasterizer_explicit_results pdfEnvOk (some ⟨"notes.txt", "text/plain"⟩)).2.1
      ⟨"notes.txt", "text/plain"⟩ (by decide) (by decide),
   (rasterizer_explicit_results pdfEnvNoBrowser
        (some ⟨"resume.pdf", "application/pdf"⟩)).2.2.1
      ⟨"resume.pdf", "application/pdf"⟩ (Or.inl (by decide)) rfl⟩

end Resumind